import Mathlib

/-!
# The stutter lexer (`src/lexer.cpp`, `include/lexer.h`)

A shallow embedding of `struct Lexer` and of `Lexer::tokenize_stream` with its
sub-scanners, followed by the properties of the scanner that are settled on it.

Modelling conventions.

* A `std::string` is a `List Char`; each `Char` stands for one `char` of the buffer.
* `cur_char` and `lookahead_char` return `(char)-1` past the end of the buffer; that
  value is `EOS_CHAR`.  The source only ever compares it with ASCII characters.
* The `int` counters `stream_idx`, `line_num`, `col_num` are natural numbers (buffers
  are taken to be shorter than `2^31` characters, so none of them wraps).
* `error(token, msg)` and an escaping C++ exception end the run: the scanners return
  `Except LexError _`.
* The loops of the sub-scanners always terminate (each iteration consumes a character
  of the buffer); they are written by recursion on the number of characters left.
  The drive loop and the comment loop do not always terminate; they take an explicit
  iteration budget and return `none` when it is used up.
-/

namespace Stutter

/-! ## Data model -/

/-- The token kinds used by the lexer (`Token_Type`, declared in `token.h`). -/
inductive Token_Type where
  | TOKEN_KEYWORD_LET
  | TOKEN_KEYWORD_IF
  | TOKEN_OPERATOR_ASSIGN
  | TOKEN_OPERATOR_PLUS
  | TOKEN_OPERATOR_MINUS
  | TOKEN_OPERATOR_MULT
  | TOKEN_OPERATOR_DIV
  | TOKEN_OPERATOR_EXP
  | TOKEN_OPERATOR_EQUALS
  | TOKEN_OPERATOR_NOT_EQUALS
  | TOKEN_OPERATOR_LESS
  | TOKEN_OPERATOR_LESS_EQ
  | TOKEN_OPERATOR_GREATER
  | TOKEN_OPERATOR_GREATER_EQ
  | TOKEN_OPERATOR_OR
  | TOKEN_OPERATOR_AND
  | TOKEN_OPERATOR_NOT
  | TOKEN_PAREN_OPEN
  | TOKEN_PAREN_CLOSE
  | TOKEN_CURLY_OPEN
  | TOKEN_CURLY_CLOSE
  | TOKEN_PARAM_INDICATOR
  | TOKEN_LEFT_ARROW
  | TOKEN_TYPE_SIG
  | TOKEN_IDENT
  | TOKEN_INT_LITERAL
  | TOKEN_FLOAT_LITERAL
  | TOKEN_STR_LITERAL
  | TOKEN_EOL
  | TOKEN_EOF
  deriving DecidableEq, Repr

open Token_Type

/-- Modelled from the spec: the collaborator `error(token, message)` of `error.h`,
which is not among the sources; it "does not return control to the scanner", so a call
ends the run.  The ways a run ends without returning a token sequence: the four
messages passed to `error`, the failed `assert` of `get_end_of_line`, and the two
exceptions that `std::stoi` and `std::stof` throw. -/
inductive LexError where
  | unrecognized_operator
  | trailing_dot
  | unrecognized_character
  | no_matching_quote
  | assertion_failed
  | invalid_argument
  | out_of_range
  deriving DecidableEq, Repr

open LexError

/-- A decimal value `mantissa / 10 ^ scale`: the exact value of the text handed to
`std::stof` (with the sign applied), before any rounding to a `float`. -/
structure Decimal where
  mantissa : Int
  scale : Nat
  deriving DecidableEq, Repr

/-- Modelled from the spec: the `Token` record of `token.h`, which is not among the
sources.  The fields are the ones `lexer.cpp` assigns (`type`, `string_value`,
`int_value`, `float_value`, `line_num`, `col_num`); the `stream` pointer, always the
address of the lexer's buffer, is left out.  A field a scanner does not assign keeps
the value of a fresh `Token`, taken to be empty or zero. -/
structure Token where
  type : Token_Type
  string_value : List Char := []
  int_value : Int := 0
  float_value : Decimal := ⟨0, 0⟩
  line_num : Nat := 0
  col_num : Nat := 0
  deriving DecidableEq, Repr

/-- The cursor of `struct Lexer`: the buffer and the three counters. -/
structure Lexer where
  stream : List Char
  stream_idx : Nat := 0
  line_num : Nat := 1
  col_num : Nat := 1
  deriving DecidableEq, Repr

/-- The value `(char)-1` that `cur_char` and `lookahead_char` return past the end. -/
def EOS_CHAR : Char := Char.ofNat 255

/-! ## Character classes (`lexer.h`) -/

/-- The macro `is_alpha`. -/
def is_alpha (c : Char) : Bool :=
  ('A'.toNat ≤ c.toNat && c.toNat ≤ 'Z'.toNat) ||
  ('a'.toNat ≤ c.toNat && c.toNat ≤ 'z'.toNat) || c == '_'

/-- The macro `is_numeric`. -/
def is_numeric (c : Char) : Bool :=
  '0'.toNat ≤ c.toNat && c.toNat ≤ '9'.toNat

/-- The macro `is_whitespace`. -/
def is_whitespace (c : Char) : Bool :=
  c == ' ' || c == '\t'

/-- The macro `is_alphanumeric`. -/
def is_alphanumeric (c : Char) : Bool :=
  is_alpha c || is_numeric c

/-- The macro `is_arithmetic_operator`. -/
def is_arithmetic_operator (c : Char) : Bool :=
  c == '+' || c == '-' || c == '*' || c == '/' || c == '^'

/-- The macro `is_comparator`. -/
def is_comparator (c : Char) : Bool :=
  c == '=' || c == '<' || c == '>'

/-- The macro `is_operator`. -/
def is_operator (c : Char) : Bool :=
  is_comparator c || is_arithmetic_operator c

/-! ## The reserved-word table (`Lexer::Lexer`) -/

/-- The entries the constructor stores in `reserved_types`, in source order. -/
def reserved_types : List (List Char × Token_Type) :=
  [ ("let".toList, TOKEN_KEYWORD_LET),
    ("if".toList, TOKEN_KEYWORD_IF),
    ("=".toList, TOKEN_OPERATOR_ASSIGN),
    ("+".toList, TOKEN_OPERATOR_PLUS),
    ("-".toList, TOKEN_OPERATOR_MINUS),
    ("*".toList, TOKEN_OPERATOR_MULT),
    ("/".toList, TOKEN_OPERATOR_DIV),
    ("^".toList, TOKEN_OPERATOR_EXP),
    ("==".toList, TOKEN_OPERATOR_EQUALS),
    ("!=".toList, TOKEN_OPERATOR_NOT_EQUALS),
    ("<".toList, TOKEN_OPERATOR_LESS),
    ("<=".toList, TOKEN_OPERATOR_LESS_EQ),
    (">".toList, TOKEN_OPERATOR_GREATER),
    (">=".toList, TOKEN_OPERATOR_GREATER_EQ),
    ("||".toList, TOKEN_OPERATOR_OR),
    ("&&".toList, TOKEN_OPERATOR_AND),
    ("!".toList, TOKEN_OPERATOR_NOT),
    ("(".toList, TOKEN_PAREN_OPEN),
    (")".toList, TOKEN_PAREN_CLOSE),
    ("\x7b".toList, TOKEN_CURLY_OPEN),
    ("\x7d".toList, TOKEN_CURLY_CLOSE),
    ("::".toList, TOKEN_PARAM_INDICATOR),
    ("->".toList, TOKEN_LEFT_ARROW) ]

/-- The lookup `reserved_types.find(key)`: the kind stored under `key`, if any. -/
def reserved_find (key : List Char) : Option Token_Type :=
  reserved_types.lookup key

/-! ## Cursor primitives -/

/-- `Lexer::done`. -/
def done (L : Lexer) : Bool :=
  decide (L.stream_idx ≥ L.stream.length)

/-- `Lexer::cur_char`. -/
def cur_char (L : Lexer) : Char :=
  if !done L then L.stream.getD L.stream_idx EOS_CHAR else EOS_CHAR

/-- `Lexer::lookahead_char`. -/
def lookahead_char (L : Lexer) (lookahead : Nat) : Char :=
  if L.stream_idx + lookahead < L.stream.length then
    L.stream.getD (L.stream_idx + lookahead) EOS_CHAR
  else EOS_CHAR

/-- `Lexer::advance_char`.  The lookahead of the line test is taken after
`stream_idx` has been incremented, as in the source. -/
def advance_char (L : Lexer) : Lexer :=
  let cur := cur_char L
  if !done L then
    let L1 : Lexer := { L with stream_idx := L.stream_idx + 1, col_num := L.col_num + 1 }
    if cur == '\n' || (cur == '\r' && lookahead_char L1 1 == '\n') then
      { L1 with col_num := 1, line_num := L1.line_num + 1 }
    else L1
  else L

/-- The number of characters of the buffer that are not consumed yet. -/
def remaining (L : Lexer) : Nat :=
  L.stream.length - L.stream_idx

/-- The loop of `Lexer::skip_whitespace`, run for at most `n` iterations. -/
def skip_whitespace_loop : Nat → Lexer → Lexer
  | 0, L => L
  | n + 1, L =>
    if is_whitespace (cur_char L) then skip_whitespace_loop n (advance_char L) else L

/-- `Lexer::skip_whitespace`. -/
def skip_whitespace (L : Lexer) : Lexer :=
  skip_whitespace_loop (remaining L) L

/-! ## `std::stoi` and `std::stof` -/

/-- The largest `int`. -/
def INT_MAX : Nat := 2 ^ 31 - 1

/-- The value of a run of decimal digits. -/
def digits_value (ds : List Char) : Nat :=
  ds.foldl (fun acc c => 10 * acc + (c.toNat - '0'.toNat)) 0

/-- The function `std::stoi` on the texts the scanner builds (no blank, no sign):
it converts the leading digits, throws `std::invalid_argument` when there is none and
`std::out_of_range` when the value does not fit an `int`. -/
def stoi (s : List Char) : Except LexError Int :=
  let ds := s.takeWhile is_numeric
  if ds.isEmpty then Except.error invalid_argument
  else if digits_value ds > INT_MAX then Except.error out_of_range
  else Except.ok (digits_value ds : Int)

/-- The least magnitude that rounds beyond the largest finite `float`:
`FLT_MAX` plus half a unit in its last place, `2^128 - 2^103`. -/
def FLT_OVERFLOW : Nat := 2 ^ 128 - 2 ^ 103

/-- The report `errno == ERANGE` of `strtof` (glibc, IEEE binary32, round to nearest)
for the decimal value `m / 10 ^ s`, the condition on which `std::stof` throws
`std::out_of_range`.  It is set on overflow, when the value rounds beyond the largest
finite `float`, and on underflow, when the result is tiny and inexact:
* a value of at least `2^-126` is in the normal range, and zero is exact;
* a value below `2^-150` always underflows;
* between the two, with `shift` the number of bits by which the value lies below the
  normal range, `mant` its 24 leading bits, `rb` the bit behind them and `sticky` the
  flag for a non-zero bit further behind: the result is not tiny when it rounds up to
  `2^-126`; it is reported inexact when a non-zero bit is shifted out of `mant`, when
  `sticky` is set, or when `rb` is set and more than one bit is shifted out. -/
def strtof_erange (m s : Nat) : Bool :=
  if m ≥ FLT_OVERFLOW * 10 ^ s then true
  else if m = 0 then false
  else if m * 2 ^ 126 ≥ 10 ^ s then false
  else if m * 2 ^ 150 < 10 ^ s then true
  else
    let shift := ((List.range 24).filter (fun k => decide (m * 2 ^ (126 + k) < 10 ^ s))).length
    let mant := m * 2 ^ (149 + shift) / 10 ^ s
    let rb := m * 2 ^ (150 + shift) / 10 ^ s % 2
    let sticky := m * 2 ^ (150 + shift) % 10 ^ s != 0
    let not_tiny := shift == 1 && mant == 2 ^ 24 - 1 && rb == 1
    !not_tiny && (mant % 2 ^ shift != 0 || sticky || (rb == 1 && decide (2 ≤ shift)))

/-- The function `std::stof` on the texts the scanner builds (digits, at most one
point, no exponent): it converts the leading `digits [. digits]`, throws
`std::invalid_argument` when no digit is there and `std::out_of_range` when `strtof`
reports the value out of the range of a `float` (overflow or underflow).  The result
is kept as the exact decimal value; its rounding to a `float` is not modelled. -/
def stof (s : List Char) : Except LexError Decimal :=
  let ip := s.takeWhile is_numeric
  let fp := match s.dropWhile is_numeric with
    | '.' :: r => r.takeWhile is_numeric
    | _ => []
  if ip.isEmpty && fp.isEmpty then Except.error invalid_argument
  else if strtof_erange (digits_value (ip ++ fp)) fp.length then Except.error out_of_range
  else Except.ok ⟨(digits_value (ip ++ fp) : Int), fp.length⟩

/-! ## Sub-scanners -/

/-- The loop of `get_identifier_or_keyword`, run for at most `n` iterations: the cursor
and the local `identifier`. -/
def identifier_loop : Nat → Lexer → List Char → Lexer × List Char
  | 0, L, identifier => (L, identifier)
  | n + 1, L, identifier =>
    if is_alphanumeric (cur_char L) then
      identifier_loop n (advance_char L) (identifier ++ [cur_char L])
    else (L, identifier)

/-- `Lexer::get_identifier_or_keyword`: the cursor after the call and the token. -/
def get_identifier_or_keyword (L : Lexer) : Lexer × Token :=
  let r := identifier_loop (remaining L) L []
  let type := match reserved_find r.2 with
    | some t => t
    | none => TOKEN_IDENT
  (r.1, { type := type, string_value := r.2, line_num := L.line_num, col_num := L.col_num })

/-- `Lexer::get_operator`. -/
def get_operator (L : Lexer) : Except LexError (Lexer × Token) :=
  let op := [cur_char L]
  let L1 := advance_char L
  let r : Lexer × List Char :=
    if cur_char L1 == '=' then (advance_char L1, op ++ [cur_char L1]) else (L1, op)
  match reserved_find r.2 with
  | some t =>
    Except.ok (r.1, { type := t, string_value := r.2, line_num := L.line_num, col_num := L.col_num })
  | none => Except.error unrecognized_operator

/-- Either loop `while (is_numeric(cur_char()))` of `get_numeric_literal`, run for at
most `n` iterations: the cursor and the local `num_literal`. -/
def numeric_loop : Nat → Lexer → List Char → Lexer × List Char
  | 0, L, num_literal => (L, num_literal)
  | n + 1, L, num_literal =>
    if is_numeric (cur_char L) then
      numeric_loop n (advance_char L) (num_literal ++ [cur_char L])
    else (L, num_literal)

/-- `Lexer::get_numeric_literal`.  The token's `string_value` is never assigned. -/
def get_numeric_literal (L : Lexer) : Except LexError (Lexer × Token) :=
  let sign : Int := if cur_char L == '-' then -1 else 1
  let L1 := if cur_char L == '-' then advance_char L else L
  let r2 := numeric_loop (remaining L1) L1 []
  let L2 := r2.1
  if cur_char L2 == '.' && is_numeric (lookahead_char L2 1) then
    let L3 := advance_char L2
    let r4 := numeric_loop (remaining L3) L3 (r2.2 ++ [cur_char L2])
    match stof r4.2 with
    | Except.ok v =>
      Except.ok (r4.1, { type := TOKEN_FLOAT_LITERAL,
                         float_value := ⟨v.mantissa * sign, v.scale⟩,
                         line_num := L.line_num, col_num := L.col_num })
    | Except.error e => Except.error e
  else if cur_char L2 == '.' && !is_numeric (lookahead_char L2 1) then
    Except.error trailing_dot
  else
    let r4 := numeric_loop (remaining L2) L2 r2.2
    match stoi r4.2 with
    | Except.ok v =>
      Except.ok (r4.1, { type := TOKEN_INT_LITERAL, int_value := v * sign,
                         line_num := L.line_num, col_num := L.col_num })
    | Except.error e => Except.error e

/-- `Lexer::get_punctuation`.  The `switch` falls through from `':'` to `'@'` and from
`'-'` to `default` when the second character is not the expected one. -/
def get_punctuation (L : Lexer) : Except LexError (Lexer × Token) :=
  let c := cur_char L
  let mk (L1 : Lexer) (t : Token_Type) (s : List Char) : Except LexError (Lexer × Token) :=
    Except.ok (advance_char L1,
      { type := t, string_value := s, line_num := L.line_num, col_num := L.col_num })
  if c == '(' then mk L TOKEN_PAREN_OPEN [c]
  else if c == ')' then mk L TOKEN_PAREN_CLOSE [c]
  else if c == '\x7b' then mk L TOKEN_CURLY_OPEN [c]
  else if c == '\x7d' then mk L TOKEN_CURLY_CLOSE [c]
  else if c == ':' then
    if lookahead_char L 1 == ':' then
      mk (advance_char L) TOKEN_PARAM_INDICATOR ([c] ++ [cur_char (advance_char L)])
    else mk L TOKEN_TYPE_SIG [c]
  else if c == '@' then mk L TOKEN_TYPE_SIG [c]
  else if c == '-' then
    if lookahead_char L 1 == '>' then
      mk (advance_char L) TOKEN_LEFT_ARROW ([c] ++ [cur_char (advance_char L)])
    else Except.error unrecognized_character
  else Except.error unrecognized_character

/-- The loop of `get_string_literal`, run for at most `n` iterations. -/
def string_loop : Nat → Lexer → List Char → Lexer × List Char
  | 0, L, str_literal => (L, str_literal)
  | n + 1, L, str_literal =>
    if cur_char L != '\"' && !done L then
      string_loop n (advance_char L) (str_literal ++ [cur_char L])
    else (L, str_literal)

/-- `Lexer::get_string_literal`. -/
def get_string_literal (L : Lexer) : Except LexError (Lexer × Token) :=
  let L1 := advance_char L
  let r := string_loop (remaining L1) L1 [cur_char L]
  if cur_char r.1 == '\"' then
    Except.ok (advance_char r.1,
      { type := TOKEN_STR_LITERAL, string_value := r.2 ++ [cur_char r.1],
        line_num := L.line_num, col_num := L.col_num })
  else Except.error no_matching_quote

/-- The loop of `get_end_of_line`, run for at most `n` iterations.  Its condition
tests `'\n'` twice, as the source does; the branch for `'\r'` is kept although the
condition never lets it run. -/
def end_of_line_loop : Nat → Lexer → Lexer
  | 0, L => L
  | n + 1, L =>
    if cur_char L == '\n' || cur_char L == '\n' then
      if cur_char L == '\n' then end_of_line_loop n (advance_char L)
      else if cur_char L == '\r' && lookahead_char L 1 == '\n' then
        end_of_line_loop n (advance_char (advance_char L))
      else end_of_line_loop n L
    else L

/-- `Lexer::get_end_of_line`. -/
def get_end_of_line (L : Lexer) : Except LexError (Lexer × Token) :=
  if cur_char L == '\n' || cur_char L == '\r' then
    Except.ok (end_of_line_loop (remaining L) L,
      { type := TOKEN_EOL, line_num := L.line_num, col_num := L.col_num })
  else Except.error assertion_failed

/-! ## The drive loop -/

/-- The loop `while (cur_char() != '\n' && cur_char() != '\n') advance_char();` of the
comment branch, with a budget of `fuel` iterations: `none` when the budget is used up
before the loop exits. -/
def comment_loop : Nat → Lexer → Option Lexer
  | 0, _ => none
  | fuel + 1, L =>
    if cur_char L != '\n' && cur_char L != '\n' then comment_loop fuel (advance_char L)
    else some L

/-- What one pass through the body of the drive loop leaves: the cursor and the
token deque, an error, or `none` when the comment loop used up its budget. -/
abbrev Step := Option (Except LexError (Lexer × List Token))

/-- The statement `tokens.push_back(scanner())`. -/
def push_back (tokens : List Token) (r : Except LexError (Lexer × Token)) : Step :=
  match r with
  | Except.ok (L1, t) => some (Except.ok (L1, tokens ++ [t]))
  | Except.error e => some (Except.error e)

/-- The dispatch of the drive loop, from the first `if` to the last `else` (the call
of `skip_whitespace` that follows it is in `loop_body`); `fuel` is the budget of the
comment loop. -/
def dispatch (fuel : Nat) (L : Lexer) (tokens : List Token) : Step :=
  if is_alpha (cur_char L) then
    push_back tokens (Except.ok (get_identifier_or_keyword L))
  else if cur_char L == '-' then
    if lookahead_char L 1 == '>' then push_back tokens (get_punctuation L)
    else if is_numeric (lookahead_char L 1) || lookahead_char L 1 == '.' then
      push_back tokens (get_numeric_literal L)
    else some (Except.ok (L, tokens))
  else if is_operator (cur_char L) then push_back tokens (get_operator L)
  else if is_numeric (cur_char L) then push_back tokens (get_numeric_literal L)
  else if cur_char L == '\"' then push_back tokens (get_string_literal L)
  else if cur_char L == '\r' || cur_char L == '\n' then push_back tokens (get_end_of_line L)
  else if cur_char L == '#' then
    match comment_loop fuel (advance_char L) with
    | none => none
    | some L2 =>
      if cur_char L2 == '\n' then some (Except.ok (advance_char L2, tokens))
      else if cur_char L2 == '\r' && lookahead_char L2 1 == '\n' then
        some (Except.ok (advance_char (advance_char L2), tokens))
      else some (Except.ok (L2, tokens))
  else push_back tokens (get_punctuation L)

/-- One iteration of the drive loop: the dispatch, then `skip_whitespace`. -/
def loop_body (fuel : Nat) (L : Lexer) (tokens : List Token) : Step :=
  match dispatch fuel L tokens with
  | some (Except.ok (L1, tokens1)) => some (Except.ok (skip_whitespace L1, tokens1))
  | some (Except.error e) => some (Except.error e)
  | none => none

/-- The end-of-stream token: only its `type` is assigned. -/
def eof_token : Token := { type := TOKEN_EOF }

/-- The drive loop `while (!done())` of `tokenize_stream` and the statements after
it, with a budget of `fuel` tests of the loop condition: `none` when the budget is
used up before the function returns. -/
def tokenize_loop : Nat → Lexer → List Token → Option (Except LexError (List Token))
  | 0, _, _ => none
  | fuel + 1, L, tokens =>
    if !done L then
      match loop_body fuel L tokens with
      | some (Except.ok (L1, tokens1)) => tokenize_loop fuel L1 tokens1
      | some (Except.error e) => some (Except.error e)
      | none => none
    else some (Except.ok (tokens ++ [eof_token]))

/-- The lexer as constructed from a buffer: offset 0, line 1, column 1. -/
def Lexer.init (stream : List Char) : Lexer := { stream := stream }

/-- `Lexer::tokenize_stream` on a freshly constructed lexer. -/
def tokenize_stream (fuel : Nat) (stream : List Char) : Option (Except LexError (List Token)) :=
  tokenize_loop fuel (Lexer.init stream) []

/-- The kinds of a token sequence. -/
def kinds (tokens : List Token) : List Token_Type := tokens.map Token.type

/-! ## Specification vocabulary -/

/-- The cursor of `L` stands in its buffer between the consumed text `pre` and the
text `suf` still to be read. -/
def At (pre suf : List Char) (L : Lexer) : Prop :=
  L.stream = pre ++ suf ∧ L.stream_idx = pre.length


/-- A token without its position: kind, lexeme and values. -/
def Token.content (t : Token) : Token_Type × List Char × Int × Decimal :=
  (t.type, t.string_value, t.int_value, t.float_value)

/-- The call `advance_char()` made `n` times in a row. -/
def advance_n : Nat → Lexer → Lexer
  | 0, L => L
  | n + 1, L => advance_n n (advance_char L)

/-- The number of line terminators of a text as the specification counts them: a line
feed that no carriage return precedes counts once, a carriage return with the line
feed that follows it counts once, a carriage return that no line feed follows counts
zero. -/
def line_terminators : List Char → Nat
  | [] => 0
  | '\r' :: '\n' :: rest => 1 + line_terminators rest
  | '\n' :: rest => 1 + line_terminators rest
  | _ :: rest => line_terminators rest

/-- The 1-based line of offset `i` of a buffer: one more than the number of line feeds
before that offset. -/
def line_at (buf : List Char) (i : Nat) : Nat :=
  1 + (buf.take i).count '\n'

/-- The 1-based column of offset `i` of a buffer: one more than the number of
characters between the last line feed before that offset (or the start of the buffer)
and the offset. -/
def col_at (buf : List Char) (i : Nat) : Nat :=
  1 + ((buf.take i).reverse.takeWhile (fun c => c != '\n')).length

/-- The counters of the cursor agree with its offset. -/
def Consistent (L : Lexer) : Prop :=
  L.stream_idx ≤ L.stream.length ∧
  L.line_num = line_at L.stream L.stream_idx ∧
  L.col_num = col_at L.stream L.stream_idx

/-- The token deque of `tokenize_stream` after at most `k` tests of the condition of
the drive loop, the comment loop having a budget of `fuel` iterations: the deque when
the loop is cut off there, or earlier when the run has ended (by the return, which
appends the end-of-stream token, by an error, or in a comment loop that does not
exit). -/
def deque_after (fuel : Nat) : Nat → Lexer → List Token → List Token
  | 0, _, tokens => tokens
  | k + 1, L, tokens =>
    if !done L then
      match loop_body fuel L tokens with
      | some (Except.ok (L1, tokens1)) => deque_after fuel k L1 tokens1
      | some (Except.error _) => tokens
      | none => tokens
    else tokens ++ [eof_token]

/-- The cursor `L1` is `L` after some number of calls of `advance_char`. -/
def Reach (L L1 : Lexer) : Prop := ∃ k, L1 = advance_n k L

/-- The pass of the drive loop entered at `L` called a sub-scanner, which returned the
token `t` and left the cursor `L1`: the six calls of the dispatch with the tests that
guard the first two. -/
def scanner_call (L L1 : Lexer) (t : Token) : Prop :=
  (is_alpha (cur_char L) = true ∧ get_identifier_or_keyword L = (L1, t)) ∨
  (is_operator (cur_char L) = true ∧ cur_char L ≠ '-' ∧ get_operator L = Except.ok (L1, t)) ∨
  get_numeric_literal L = Except.ok (L1, t) ∨
  get_punctuation L = Except.ok (L1, t) ∨
  get_string_literal L = Except.ok (L1, t) ∨
  get_end_of_line L = Except.ok (L1, t)

/-- The kinds that the reserved-word table gives to the spellings `-`, `!=`, `||`, `&&`
and `!`. -/
def unscanned_kinds : List Token_Type :=
  [TOKEN_OPERATOR_MINUS, TOKEN_OPERATOR_NOT_EQUALS, TOKEN_OPERATOR_OR, TOKEN_OPERATOR_AND,
    TOKEN_OPERATOR_NOT]

/-! ## The loops of the sub-scanners are the source's `while` loops

Each lemma is the unfolding equation of the `while` loop it models: the number of
characters left is a budget the loop cannot use up. -/

theorem cur_char_of_done {L : Lexer} (h : done L = true) : cur_char L = EOS_CHAR := by
  simp [cur_char, h]

theorem done_of_remaining_zero {L : Lexer} (h : remaining L = 0) : done L = true := by
  simp only [remaining] at h
  simp only [done, decide_eq_true_eq]
  omega

theorem done_of_remaining_succ {L : Lexer} {n : Nat} (h : remaining L = n + 1) :
    done L = false := by
  simp only [remaining] at h
  simp only [done, decide_eq_false_iff_not]
  omega

theorem remaining_advance_char {L : Lexer} {n : Nat} (h : remaining L = n + 1) :
    remaining (advance_char L) = n := by
  have hd := done_of_remaining_succ h
  unfold advance_char
  simp only [hd, Bool.not_false, if_true]
  simp only [remaining] at h
  split <;> simp only [remaining] <;> omega

theorem skip_whitespace_unfold (L : Lexer) :
    skip_whitespace L =
      if is_whitespace (cur_char L) then skip_whitespace (advance_char L) else L := by
  unfold skip_whitespace
  cases hn : remaining L with
  | zero =>
    have he : is_whitespace EOS_CHAR = false := by decide
    simp [skip_whitespace_loop, cur_char_of_done (done_of_remaining_zero hn), he]
  | succ n => simp [skip_whitespace_loop, remaining_advance_char hn]

theorem identifier_loop_unfold (L : Lexer) (identifier : List Char) :
    identifier_loop (remaining L) L identifier =
      if is_alphanumeric (cur_char L) then
        identifier_loop (remaining (advance_char L)) (advance_char L)
          (identifier ++ [cur_char L])
      else (L, identifier) := by
  cases hn : remaining L with
  | zero =>
    have he : is_alphanumeric EOS_CHAR = false := by decide
    simp [identifier_loop, cur_char_of_done (done_of_remaining_zero hn), he]
  | succ n => simp [identifier_loop, remaining_advance_char hn]

theorem numeric_loop_unfold (L : Lexer) (num_literal : List Char) :
    numeric_loop (remaining L) L num_literal =
      if is_numeric (cur_char L) then
        numeric_loop (remaining (advance_char L)) (advance_char L)
          (num_literal ++ [cur_char L])
      else (L, num_literal) := by
  cases hn : remaining L with
  | zero =>
    have he : is_numeric EOS_CHAR = false := by decide
    simp [numeric_loop, cur_char_of_done (done_of_remaining_zero hn), he]
  | succ n => simp [numeric_loop, remaining_advance_char hn]

theorem string_loop_unfold (L : Lexer) (str_literal : List Char) :
    string_loop (remaining L) L str_literal =
      if cur_char L != '\"' && !done L then
        string_loop (remaining (advance_char L)) (advance_char L)
          (str_literal ++ [cur_char L])
      else (L, str_literal) := by
  cases hn : remaining L with
  | zero => simp [string_loop, done_of_remaining_zero hn]
  | succ n => simp [string_loop, remaining_advance_char hn]

theorem end_of_line_loop_unfold (L : Lexer) :
    end_of_line_loop (remaining L) L =
      if cur_char L == '\n' || cur_char L == '\n' then
        end_of_line_loop (remaining (advance_char L)) (advance_char L)
      else L := by
  cases hn : remaining L with
  | zero =>
    have he : (EOS_CHAR == '\n') = false := by decide
    simp [end_of_line_loop, cur_char_of_done (done_of_remaining_zero hn), he]
  | succ n =>
    by_cases hc : (cur_char L == '\n') = true
    · simp [end_of_line_loop, hc, remaining_advance_char hn]
    · simp [end_of_line_loop, hc]

/-! ## A larger budget does not change a result -/

theorem comment_loop_mono (fuel : Nat) :
    ∀ (L L1 : Lexer), comment_loop fuel L = some L1 → comment_loop (fuel + 1) L = some L1 := by
  induction fuel with
  | zero => intro L L1 h; simp [comment_loop] at h
  | succ fuel ih =>
    intro L L1 h
    rw [comment_loop] at h
    rw [comment_loop]
    split
    · rename_i hc
      rw [if_pos hc] at h
      exact ih _ _ h
    · rename_i hc
      rw [if_neg hc] at h
      exact h

theorem dispatch_mono {fuel : Nat} {L : Lexer} {tokens : List Token}
    {r : Except LexError (Lexer × List Token)} (h : dispatch fuel L tokens = some r) :
    dispatch (fuel + 1) L tokens = some r := by
  unfold dispatch at h ⊢
  by_cases c1 : is_alpha (cur_char L) = true
  · rw [if_pos c1] at h ⊢
    exact h
  rw [if_neg c1] at h ⊢
  by_cases c2 : (cur_char L == '-') = true
  · rw [if_pos c2] at h ⊢
    exact h
  rw [if_neg c2] at h ⊢
  by_cases c3 : is_operator (cur_char L) = true
  · rw [if_pos c3] at h ⊢
    exact h
  rw [if_neg c3] at h ⊢
  by_cases c4 : is_numeric (cur_char L) = true
  · rw [if_pos c4] at h ⊢
    exact h
  rw [if_neg c4] at h ⊢
  by_cases c5 : (cur_char L == '\"') = true
  · rw [if_pos c5] at h ⊢
    exact h
  rw [if_neg c5] at h ⊢
  by_cases c6 : (cur_char L == '\r' || cur_char L == '\n') = true
  · rw [if_pos c6] at h ⊢
    exact h
  rw [if_neg c6] at h ⊢
  by_cases c7 : (cur_char L == '#') = true
  · rw [if_pos c7] at h ⊢
    cases hc : comment_loop fuel (advance_char L) with
    | none =>
      rw [hc] at h
      simp at h
    | some L2 =>
      rw [hc] at h
      rw [comment_loop_mono _ _ _ hc]
      exact h
  · rw [if_neg c7] at h ⊢
    exact h

theorem loop_body_mono {fuel : Nat} {L : Lexer} {tokens : List Token}
    {r : Except LexError (Lexer × List Token)} (h : loop_body fuel L tokens = some r) :
    loop_body (fuel + 1) L tokens = some r := by
  unfold loop_body at h ⊢
  cases hd : dispatch fuel L tokens with
  | none =>
    rw [hd] at h
    simp at h
  | some r1 =>
    rw [hd] at h
    rw [dispatch_mono hd]
    exact h

/-- A result of the drive loop (a token sequence or an error) obtained within some
budget is the result within every larger budget. -/
theorem tokenize_loop_mono (fuel : Nat) :
    ∀ (L : Lexer) (tokens : List Token) (r : Except LexError (List Token)),
      tokenize_loop fuel L tokens = some r → tokenize_loop (fuel + 1) L tokens = some r := by
  induction fuel with
  | zero => intro L tokens r h; simp [tokenize_loop] at h
  | succ fuel ih =>
    intro L tokens r h
    rw [tokenize_loop] at h
    rw [tokenize_loop]
    by_cases hd : (!done L) = true
    · rw [if_pos hd] at h ⊢
      cases hb : loop_body fuel L tokens with
      | none =>
        rw [hb] at h
        simp at h
      | some r1 =>
        rw [hb] at h
        rw [loop_body_mono hb]
        cases r1 with
        | error e => exact h
        | ok p =>
          obtain ⟨L1, tokens1⟩ := p
          exact ih L1 tokens1 r h
    · rw [if_neg hd] at h ⊢
      exact h

/-! ## Cursor lemmas -/

theorem at_init (s : List Char) : At [] s (Lexer.init s) := by
  simp [At, Lexer.init]

theorem remaining_of_at {pre suf : List Char} {L : Lexer} (h : At pre suf L) :
    remaining L = suf.length := by
  obtain ⟨h1, h2⟩ := h
  simp [remaining, h1, h2]

theorem done_of_at_nil {pre : List Char} {L : Lexer} (h : At pre [] L) : done L = true := by
  obtain ⟨h1, h2⟩ := h
  simp [done, h1, h2]

theorem done_of_at_cons {pre suf : List Char} {c : Char} {L : Lexer}
    (h : At pre (c :: suf) L) : done L = false := by
  obtain ⟨h1, h2⟩ := h
  simp [done, h1, h2]

theorem cur_char_of_at_nil {pre : List Char} {L : Lexer} (h : At pre [] L) :
    cur_char L = EOS_CHAR := by
  simp [cur_char, done_of_at_nil h]

theorem cur_char_of_at_cons {pre suf : List Char} {c : Char} {L : Lexer}
    (h : At pre (c :: suf) L) : cur_char L = c := by
  have hd := done_of_at_cons h
  obtain ⟨h1, h2⟩ := h
  have hget : (pre ++ c :: suf)[pre.length]? = some c := by
    rw [List.getElem?_append_right (Nat.le_refl _)]
    simp
  simp [cur_char, hd, h1, h2, List.getD_eq_getElem?_getD, hget]

theorem cur_char_of_at {pre suf : List Char} {L : Lexer} (h : At pre suf L) :
    cur_char L = suf.headD EOS_CHAR := by
  cases suf with
  | nil => simpa using cur_char_of_at_nil h
  | cons c suf => simpa using cur_char_of_at_cons h

theorem lookahead_of_at {pre suf : List Char} {L : Lexer} (h : At pre suf L) :
    lookahead_char L 1 = suf.getD 1 EOS_CHAR := by
  obtain ⟨h1, h2⟩ := h
  unfold lookahead_char
  rw [h1, h2]
  by_cases hlt : 1 < suf.length
  · have : pre.length + 1 < (pre ++ suf).length := by simp; omega
    simp only [this, if_true]
    rw [List.getD_eq_getElem?_getD, List.getD_eq_getElem?_getD,
      List.getElem?_append_right (by omega)]
    simp
  · have : ¬ pre.length + 1 < (pre ++ suf).length := by simp; omega
    simp only [this, if_false]
    rw [List.getD_eq_getElem?_getD, List.getElem?_eq_none (by omega)]
    rfl

theorem advance_char_of_at_nil {pre : List Char} {L : Lexer} (h : At pre [] L) :
    advance_char L = L := by
  simp [advance_char, done_of_at_nil h]

theorem advance_char_of_at_cons {pre suf : List Char} {c : Char} {L : Lexer}
    (h : At pre (c :: suf) L) : At (pre ++ [c]) suf (advance_char L) := by
  have hd := done_of_at_cons h
  obtain ⟨h1, h2⟩ := h
  unfold advance_char
  simp only [hd, Bool.not_false, if_true]
  split <;> simp [At, h1, h2]


/-! ## The loops of the sub-scanners -/

theorem skip_whitespace_of_at_nil {pre : List Char} {L : Lexer} (h : At pre [] L) :
    skip_whitespace L = L := by
  simp [skip_whitespace, remaining_of_at h, skip_whitespace_loop]

theorem identifier_loop_run (s : List Char) :
    ∀ (pre rest : List Char) (L : Lexer) (acc : List Char) (n : Nat),
      At pre (s ++ rest) L → (∀ c ∈ s, is_alphanumeric c = true) →
      is_alphanumeric (rest.headD EOS_CHAR) = false → s.length ≤ n →
      ∃ L1, At (pre ++ s) rest L1 ∧ identifier_loop n L acc = (L1, acc ++ s) := by
  induction s with
  | nil =>
    intro pre rest L acc n h _ hstop _
    have h0 : At pre rest L := by simpa using h
    refine ⟨L, by simpa using h0, ?_⟩
    cases n with
    | zero => simp [identifier_loop]
    | succ n =>
      have hcur : is_alphanumeric (cur_char L) = false := by rw [cur_char_of_at h0]; exact hstop
      simp [identifier_loop, hcur]
  | cons c s ih =>
    intro pre rest L acc n h hs hstop hn
    cases n with
    | zero => simp at hn
    | succ n =>
      have h0 : At pre (c :: (s ++ rest)) L := by simpa using h
      have hc := cur_char_of_at_cons h0
      obtain ⟨L1, hL1, hrun⟩ := ih (pre ++ [c]) rest (advance_char L) (acc ++ [c]) n
        (advance_char_of_at_cons h0) (fun x hx => hs x (List.mem_cons_of_mem c hx)) hstop
        (by simpa using hn)
      refine ⟨L1, by simpa using hL1, ?_⟩
      simp [identifier_loop, hc, hs c (List.mem_cons_self c s), hrun]

theorem numeric_loop_run (s : List Char) :
    ∀ (pre rest : List Char) (L : Lexer) (acc : List Char) (n : Nat),
      At pre (s ++ rest) L → (∀ c ∈ s, is_numeric c = true) →
      is_numeric (rest.headD EOS_CHAR) = false → s.length ≤ n →
      ∃ L1, At (pre ++ s) rest L1 ∧ numeric_loop n L acc = (L1, acc ++ s) := by
  induction s with
  | nil =>
    intro pre rest L acc n h _ hstop _
    have h0 : At pre rest L := by simpa using h
    refine ⟨L, by simpa using h0, ?_⟩
    cases n with
    | zero => simp [numeric_loop]
    | succ n =>
      have hcur : is_numeric (cur_char L) = false := by rw [cur_char_of_at h0]; exact hstop
      simp [numeric_loop, hcur]
  | cons c s ih =>
    intro pre rest L acc n h hs hstop hn
    cases n with
    | zero => simp at hn
    | succ n =>
      have h0 : At pre (c :: (s ++ rest)) L := by simpa using h
      have hc := cur_char_of_at_cons h0
      obtain ⟨L1, hL1, hrun⟩ := ih (pre ++ [c]) rest (advance_char L) (acc ++ [c]) n
        (advance_char_of_at_cons h0) (fun x hx => hs x (List.mem_cons_of_mem c hx)) hstop
        (by simpa using hn)
      refine ⟨L1, by simpa using hL1, ?_⟩
      simp [numeric_loop, hc, hs c (List.mem_cons_self c s), hrun]

theorem string_loop_run (s : List Char) :
    ∀ (pre rest : List Char) (L : Lexer) (acc : List Char) (n : Nat),
      At pre (s ++ rest) L → (∀ c ∈ s, c ≠ '\"') →
      (rest = [] ∨ rest.headD EOS_CHAR = '\"') → s.length ≤ n →
      ∃ L1, At (pre ++ s) rest L1 ∧ string_loop n L acc = (L1, acc ++ s) := by
  induction s with
  | nil =>
    intro pre rest L acc n h _ hstop _
    have h0 : At pre rest L := by simpa using h
    refine ⟨L, by simpa using h0, ?_⟩
    cases n with
    | zero => simp [string_loop]
    | succ n =>
      rcases hstop with hnil | hq
      · subst hnil
        simp [string_loop, done_of_at_nil h0]
      · have hcur : cur_char L = '\"' := by rw [cur_char_of_at h0]; exact hq
        simp [string_loop, hcur]
  | cons c s ih =>
    intro pre rest L acc n h hs hstop hn
    cases n with
    | zero => simp at hn
    | succ n =>
      have h0 : At pre (c :: (s ++ rest)) L := by simpa using h
      have hc := cur_char_of_at_cons h0
      obtain ⟨L1, hL1, hrun⟩ := ih (pre ++ [c]) rest (advance_char L) (acc ++ [c]) n
        (advance_char_of_at_cons h0) (fun x hx => hs x (List.mem_cons_of_mem c hx)) hstop
        (by simpa using hn)
      refine ⟨L1, by simpa using hL1, ?_⟩
      simp [string_loop, hc, hs c (List.mem_cons_self c s), done_of_at_cons h0, hrun]

/-! ## The reserved-word table -/

theorem lookup_mem_values {α β : Type} [BEq α] (k : α) (v : β) :
    ∀ l : List (α × β), l.lookup k = some v → v ∈ l.map Prod.snd := by
  intro l
  induction l with
  | nil => intro h; simp at h
  | cons e l ih =>
    intro h
    obtain ⟨a, b⟩ := e
    rw [List.lookup_cons] at h
    split at h
    · simp at h; simp [h]
    · simp [ih h]

theorem reserved_find_ne_eof {key : List Char} {t : Token_Type}
    (h : reserved_find key = some t) : t ≠ TOKEN_EOF := by
  have hm := lookup_mem_values key t reserved_types h
  intro ht
  subst ht
  revert hm
  decide

theorem beq_false_of_alpha {c d : Char} (hc : is_alpha c = true) (hd : is_alpha d = false) :
    (c == d) = false := by
  rw [beq_eq_false_iff_ne]
  rintro rfl
  rw [hc] at hd
  exact Bool.noConfusion hd

theorem reserved_find_alpha (c : Char) (cs : List Char) (hc : is_alpha c = true) :
    reserved_find (c :: cs) =
      if c :: cs = "let".toList then some TOKEN_KEYWORD_LET
      else if c :: cs = "if".toList then some TOKEN_KEYWORD_IF
      else none := by
  have h1 : (c == '=') = false := beq_false_of_alpha hc (by decide)
  have h2 : (c == '+') = false := beq_false_of_alpha hc (by decide)
  have h3 : (c == '-') = false := beq_false_of_alpha hc (by decide)
  have h4 : (c == '*') = false := beq_false_of_alpha hc (by decide)
  have h5 : (c == '/') = false := beq_false_of_alpha hc (by decide)
  have h6 : (c == '^') = false := beq_false_of_alpha hc (by decide)
  have h7 : (c == '!') = false := beq_false_of_alpha hc (by decide)
  have h8 : (c == '<') = false := beq_false_of_alpha hc (by decide)
  have h9 : (c == '>') = false := beq_false_of_alpha hc (by decide)
  have h10 : (c == '|') = false := beq_false_of_alpha hc (by decide)
  have h11 : (c == '&') = false := beq_false_of_alpha hc (by decide)
  have h12 : (c == '(') = false := beq_false_of_alpha hc (by decide)
  have h13 : (c == ')') = false := beq_false_of_alpha hc (by decide)
  have h14 : (c == '\x7b') = false := beq_false_of_alpha hc (by decide)
  have h15 : (c == '\x7d') = false := beq_false_of_alpha hc (by decide)
  have h16 : (c == ':') = false := beq_false_of_alpha hc (by decide)
  simp only [reserved_find, reserved_types, List.lookup, String.toList, List.cons_beq_cons,
    h1, h2, h3, h4, h5, h6, h7, h8, h9, h10, h11, h12, h13, h14, h15, h16, Bool.false_and]
  by_cases hl : c :: cs = ['l', 'e', 't']
  · have hl2 := hl
    simp only [List.cons.injEq] at hl2
    obtain ⟨rfl, rfl⟩ := hl2
    rfl
  · by_cases hi : c :: cs = ['i', 'f']
    · have hi2 := hi
      simp only [List.cons.injEq] at hi2
      obtain ⟨rfl, rfl⟩ := hi2
      rfl
    · have e1 : (c == 'l' && cs == ['e', 't']) = false := by
        rw [Bool.eq_false_iff]
        intro h
        simp only [Bool.and_eq_true, beq_iff_eq] at h
        exact hl (by rw [h.1, h.2])
      have e2 : (c == 'i' && cs == ['f']) = false := by
        rw [Bool.eq_false_iff]
        intro h
        simp only [Bool.and_eq_true, beq_iff_eq] at h
        exact hi (by rw [h.1, h.2])
      rw [e1, e2, if_neg hl, if_neg hi]


/-! ## No sub-scanner produces the end-of-stream kind -/

theorem get_identifier_or_keyword_type (L : Lexer) :
    (get_identifier_or_keyword L).2.type ≠ TOKEN_EOF := by
  unfold get_identifier_or_keyword
  simp only
  split
  · rename_i t ht
    exact reserved_find_ne_eof ht
  · decide

theorem get_operator_type {L L1 : Lexer} {t : Token}
    (h : get_operator L = Except.ok (L1, t)) : t.type ≠ TOKEN_EOF := by
  unfold get_operator at h
  simp only at h
  split at h
  · rename_i k hk
    simp only [Except.ok.injEq, Prod.mk.injEq] at h
    rw [← h.2]
    exact reserved_find_ne_eof hk
  · simp at h

theorem get_numeric_literal_type {L L1 : Lexer} {t : Token}
    (h : get_numeric_literal L = Except.ok (L1, t)) :
    t.type = TOKEN_INT_LITERAL ∨ t.type = TOKEN_FLOAT_LITERAL := by
  unfold get_numeric_literal at h
  simp only at h
  repeat' split at h
  all_goals first
    | (simp only [Except.ok.injEq, Prod.mk.injEq] at h
       rw [← h.2]
       simp)
    | simp at h

theorem get_punctuation_type {L L1 : Lexer} {t : Token}
    (h : get_punctuation L = Except.ok (L1, t)) : t.type ≠ TOKEN_EOF := by
  unfold get_punctuation at h
  simp only at h
  repeat' split at h
  all_goals first
    | (simp only [Except.ok.injEq, Prod.mk.injEq] at h
       rw [← h.2]
       simp)
    | simp at h

theorem get_string_literal_type {L L1 : Lexer} {t : Token}
    (h : get_string_literal L = Except.ok (L1, t)) : t.type = TOKEN_STR_LITERAL := by
  unfold get_string_literal at h
  simp only at h
  split at h
  · simp only [Except.ok.injEq, Prod.mk.injEq] at h
    rw [← h.2]
  · simp at h

theorem get_end_of_line_type {L L1 : Lexer} {t : Token}
    (h : get_end_of_line L = Except.ok (L1, t)) : t.type = TOKEN_EOL := by
  unfold get_end_of_line at h
  split at h
  · simp only [Except.ok.injEq, Prod.mk.injEq] at h
    rw [← h.2]
  · simp at h

/-- Appending a scanner's token keeps a deque free of end-of-stream tokens. -/
theorem push_back_no_eof {tokens tokens1 : List Token} {r : Except LexError (Lexer × Token)}
    {L1 : Lexer} (h : push_back tokens r = some (Except.ok (L1, tokens1)))
    (hr : ∀ L t, r = Except.ok (L, t) → t.type ≠ TOKEN_EOF)
    (hall : ∀ t ∈ tokens, t.type ≠ TOKEN_EOF) : ∀ t ∈ tokens1, t.type ≠ TOKEN_EOF := by
  unfold push_back at h
  split at h
  · rename_i L2 t2
    simp only [Option.some.injEq, Except.ok.injEq, Prod.mk.injEq] at h
    intro t ht
    rw [← h.2] at ht
    rcases List.mem_append.mp ht with h1 | h1
    · exact hall t h1
    · rw [List.mem_singleton] at h1
      rw [h1]
      exact hr L2 t2 rfl
  · simp at h

theorem dispatch_no_eof {fuel : Nat} {L L1 : Lexer} {tokens tokens1 : List Token}
    (h : dispatch fuel L tokens = some (Except.ok (L1, tokens1)))
    (hall : ∀ t ∈ tokens, t.type ≠ TOKEN_EOF) : ∀ t ∈ tokens1, t.type ≠ TOKEN_EOF := by
  have hnum : ∀ (L2 : Lexer) (t : Token),
      get_numeric_literal L = Except.ok (L2, t) → t.type ≠ TOKEN_EOF := by
    intro L2 t ht
    rcases get_numeric_literal_type ht with h1 | h1 <;> rw [h1] <;> decide
  have hpun : ∀ (L2 : Lexer) (t : Token),
      get_punctuation L = Except.ok (L2, t) → t.type ≠ TOKEN_EOF :=
    fun L2 t ht => get_punctuation_type ht
  unfold dispatch at h
  split at h
  · refine push_back_no_eof h ?_ hall
    intro L2 t ht
    simp only [Except.ok.injEq] at ht
    have := get_identifier_or_keyword_type L
    rw [ht] at this
    exact this
  split at h
  · split at h
    · exact push_back_no_eof h hpun hall
    split at h
    · exact push_back_no_eof h hnum hall
    · simp only [Option.some.injEq, Except.ok.injEq, Prod.mk.injEq] at h
      rw [← h.2]
      exact hall
  split at h
  · exact push_back_no_eof h (fun L2 t ht => get_operator_type ht) hall
  split at h
  · exact push_back_no_eof h hnum hall
  split at h
  · refine push_back_no_eof h ?_ hall
    intro L2 t ht
    rw [get_string_literal_type ht]
    decide
  split at h
  · refine push_back_no_eof h ?_ hall
    intro L2 t ht
    rw [get_end_of_line_type ht]
    decide
  split at h
  · split at h
    · simp at h
    · repeat' split at h
      all_goals
        simp only [Option.some.injEq, Except.ok.injEq, Prod.mk.injEq] at h
        rw [← h.2]
        exact hall
  · exact push_back_no_eof h hpun hall

theorem loop_body_no_eof {fuel : Nat} {L L1 : Lexer} {tokens tokens1 : List Token}
    (h : loop_body fuel L tokens = some (Except.ok (L1, tokens1)))
    (hall : ∀ t ∈ tokens, t.type ≠ TOKEN_EOF) : ∀ t ∈ tokens1, t.type ≠ TOKEN_EOF := by
  unfold loop_body at h
  split at h
  · rename_i L2 tokens2 hd
    simp only [Option.some.injEq, Except.ok.injEq, Prod.mk.injEq] at h
    rw [← h.2]
    exact dispatch_no_eof hd hall
  · simp at h
  · simp at h

theorem tokenize_loop_no_eof (fuel : Nat) :
    ∀ (L : Lexer) (tokens result : List Token),
      tokenize_loop fuel L tokens = some (Except.ok result) →
      (∀ t ∈ tokens, t.type ≠ TOKEN_EOF) →
      ∃ front, result = front ++ [eof_token] ∧ ∀ t ∈ front, t.type ≠ TOKEN_EOF := by
  induction fuel with
  | zero => intro L tokens result h; simp [tokenize_loop] at h
  | succ fuel ih =>
    intro L tokens result h hall
    unfold tokenize_loop at h
    split at h
    · split at h
      · rename_i L1 tokens1 hb
        exact ih L1 tokens1 result h (loop_body_no_eof hb hall)
      · simp at h
      · simp at h
    · simp only [Option.some.injEq, Except.ok.injEq] at h
      exact ⟨tokens, h.symm, hall⟩


/-! ## Unfolding the drive loop -/

theorem tokenize_loop_done {L : Lexer} (hd : done L = true) (fuel : Nat) (tokens : List Token) :
    tokenize_loop (fuel + 1) L tokens = some (Except.ok (tokens ++ [eof_token])) := by
  simp [tokenize_loop, hd]

theorem tokenize_loop_step {L L1 : Lexer} {fuel : Nat} {tokens tokens1 : List Token}
    (hd : done L = false) (hb : loop_body fuel L tokens = some (Except.ok (L1, tokens1))) :
    tokenize_loop (fuel + 1) L tokens = tokenize_loop fuel L1 tokens1 := by
  simp [tokenize_loop, hd, hb]

theorem tokenize_loop_error {L : Lexer} {fuel : Nat} {tokens : List Token} {e : LexError}
    (hd : done L = false) (hb : dispatch fuel L tokens = some (Except.error e)) :
    tokenize_loop (fuel + 1) L tokens = some (Except.error e) := by
  simp [tokenize_loop, hd, loop_body, hb]

theorem tokenize_loop_none {L : Lexer} {fuel : Nat} {tokens : List Token}
    (hd : done L = false) (hb : dispatch fuel L tokens = none) :
    tokenize_loop (fuel + 1) L tokens = none := by
  simp [tokenize_loop, hd, loop_body, hb]

/-- A pass of the drive loop whose scanner consumes the rest of the buffer is the
last one: the next test of the loop condition ends the loop. -/
theorem tokenize_loop_last {L L1 : Lexer} {fuel : Nat} {tokens tokens1 : List Token}
    {pre : List Char} (hd : done L = false)
    (hb : dispatch (fuel + 1) L tokens = some (Except.ok (L1, tokens1))) (h1 : At pre [] L1) :
    tokenize_loop (fuel + 2) L tokens = some (Except.ok (tokens1 ++ [eof_token])) := by
  have hbody : loop_body (fuel + 1) L tokens = some (Except.ok (L1, tokens1)) := by
    simp [loop_body, hb, skip_whitespace_of_at_nil h1]
  rw [tokenize_loop_step hd hbody]
  exact tokenize_loop_done (done_of_at_nil h1) fuel tokens1

/-- A pass of the drive loop that leaves the cursor where it was is repeated for
ever: the loop never ends, whatever the budget. -/
theorem tokenize_loop_stuck {L : Lexer} (hd : done L = false)
    (hb : ∀ fuel tokens, ∃ tokens1, loop_body fuel L tokens = some (Except.ok (L, tokens1))) :
    ∀ fuel tokens, tokenize_loop fuel L tokens = none := by
  intro fuel
  induction fuel with
  | zero => intro tokens; rfl
  | succ fuel ih =>
    intro tokens
    obtain ⟨tokens1, h1⟩ := hb fuel tokens
    rw [tokenize_loop_step hd h1]
    exact ih tokens1

/-! ## Identifiers and keywords -/

theorem get_identifier_or_keyword_run {pre rest : List Char} {L : Lexer} (c : Char)
    (cs : List Char) (h : At pre (c :: cs ++ rest) L) (hc : is_alpha c = true)
    (hcs : ∀ x ∈ cs, is_alphanumeric x = true)
    (hstop : is_alphanumeric (rest.headD EOS_CHAR) = false) :
    ∃ L1, At (pre ++ c :: cs) rest L1 ∧
      get_identifier_or_keyword L = (L1,
        { type := if c :: cs = "let".toList then TOKEN_KEYWORD_LET
                  else if c :: cs = "if".toList then TOKEN_KEYWORD_IF else TOKEN_IDENT,
          string_value := c :: cs, line_num := L.line_num, col_num := L.col_num }) := by
  have hall : ∀ x ∈ c :: cs, is_alphanumeric x = true := by
    intro x hx
    rcases List.mem_cons.mp hx with rfl | hx
    · simp [is_alphanumeric, hc]
    · exact hcs x hx
  obtain ⟨L1, hL1, hrun⟩ := identifier_loop_run (c :: cs) pre rest L [] (remaining L) h hall hstop
    (by rw [remaining_of_at h]; simp)
  refine ⟨L1, hL1, ?_⟩
  unfold get_identifier_or_keyword
  simp only [hrun, List.nil_append, reserved_find_alpha c cs hc]
  split_ifs <;> rfl

/-- C5: a buffer that is one identifier-shaped word (a letter or underscore, then
letters, digits and underscores) is tokenized, with any budget of at least two loop
tests, to exactly one token followed by end-of-stream; the token's lexeme is the
whole word and its kind is keyword-let for `let`, keyword-if for `if`, identifier
for every other word. -/
theorem C5_identifier_or_keyword (c : Char) (cs : List Char) (hc : is_alpha c = true)
    (hcs : ∀ x ∈ cs, is_alphanumeric x = true) (fuel : Nat) :
    tokenize_stream (fuel + 2) (c :: cs) = some (Except.ok
      [{ type := if c :: cs = "let".toList then TOKEN_KEYWORD_LET
                 else if c :: cs = "if".toList then TOKEN_KEYWORD_IF else TOKEN_IDENT,
         string_value := c :: cs, line_num := 1, col_num := 1 }, eof_token]) := by
  have h0 : At [] (c :: cs ++ []) (Lexer.init (c :: cs)) := by
    simpa using at_init (c :: cs)
  obtain ⟨L1, hL1, hrun⟩ := get_identifier_or_keyword_run c cs h0 hc hcs (by decide)
  have hcur : cur_char (Lexer.init (c :: cs)) = c := cur_char_of_at_cons (at_init (c :: cs))
  have hdisp : dispatch (fuel + 1) (Lexer.init (c :: cs)) [] = some (Except.ok (L1,
      [{ type := if c :: cs = "let".toList then TOKEN_KEYWORD_LET
                 else if c :: cs = "if".toList then TOKEN_KEYWORD_IF else TOKEN_IDENT,
         string_value := c :: cs, line_num := 1, col_num := 1 }])) := by
    unfold dispatch
    rw [hcur, hc, hrun]
    rfl
  exact tokenize_loop_last (done_of_at_cons (at_init (c :: cs))) hdisp hL1

/-- C5, at the word `letx`: one identifier, not keyword-let followed by `x`. -/
theorem C5_identifier_or_keyword_witness :
    tokenize_stream 2 "letx".toList = some (Except.ok
      [{ type := TOKEN_IDENT, string_value := "letx".toList, line_num := 1, col_num := 1 },
        eof_token]) :=
  C5_identifier_or_keyword 'l' "etx".toList (by decide) (by decide) 0

/-- C2: whenever `tokenize_stream` returns a token sequence, the sequence is a run of
tokens none of which has kind end-of-stream, followed by one last token of kind
end-of-stream. -/
theorem C2_end_of_stream_last_and_only (fuel : Nat) (stream : List Char)
    (result : List Token) (h : tokenize_stream fuel stream = some (Except.ok result)) :
    ∃ front last, result = front ++ [last] ∧ last.type = TOKEN_EOF ∧
      ∀ t ∈ front, t.type ≠ TOKEN_EOF := by
  obtain ⟨front, h1, h2⟩ := tokenize_loop_no_eof fuel (Lexer.init stream) [] result h
    (by intro t ht; simp at ht)
  exact ⟨front, eof_token, h1, rfl, h2⟩

/-- C2, at the buffer `let x = 1`. -/
theorem C2_end_of_stream_last_and_only_witness :
    ∃ front last,
      [ ({ type := TOKEN_KEYWORD_LET, string_value := "let".toList, line_num := 1, col_num := 1 } : Token),
        { type := TOKEN_IDENT, string_value := "x".toList, line_num := 1, col_num := 5 },
        { type := TOKEN_OPERATOR_ASSIGN, string_value := "=".toList, line_num := 1, col_num := 7 },
        { type := TOKEN_INT_LITERAL, int_value := 1, line_num := 1, col_num := 9 },
        eof_token ] = front ++ [last] ∧ last.type = TOKEN_EOF ∧
      ∀ t ∈ front, t.type ≠ TOKEN_EOF :=
  C2_end_of_stream_last_and_only 5 "let x = 1".toList _ (by rfl)


/-! ## Whitespace -/

theorem skip_whitespace_of_not_ws {L : Lexer} (h : is_whitespace (cur_char L) = false) :
    skip_whitespace L = L := by
  unfold skip_whitespace
  cases remaining L with
  | zero => rfl
  | succ n => simp [skip_whitespace_loop, h]

theorem skip_whitespace_loop_run (s : List Char) :
    ∀ (pre rest : List Char) (L : Lexer) (n : Nat),
      At pre (s ++ rest) L → (∀ c ∈ s, is_whitespace c = true) →
      is_whitespace (rest.headD EOS_CHAR) = false → s.length ≤ n →
      ∃ L1, At (pre ++ s) rest L1 ∧ skip_whitespace_loop n L = L1 := by
  induction s with
  | nil =>
    intro pre rest L n h _ hstop _
    have h0 : At pre rest L := by simpa using h
    refine ⟨L, by simpa using h0, ?_⟩
    cases n with
    | zero => rfl
    | succ n =>
      have hcur : is_whitespace (cur_char L) = false := by rw [cur_char_of_at h0]; exact hstop
      simp [skip_whitespace_loop, hcur]
  | cons c s ih =>
    intro pre rest L n h hs hstop hn
    cases n with
    | zero => simp at hn
    | succ n =>
      have h0 : At pre (c :: (s ++ rest)) L := by simpa using h
      have hc := cur_char_of_at_cons h0
      obtain ⟨L1, hL1, hrun⟩ := ih (pre ++ [c]) rest (advance_char L) n
        (advance_char_of_at_cons h0) (fun x hx => hs x (List.mem_cons_of_mem c hx)) hstop
        (by simpa using hn)
      refine ⟨L1, by simpa using hL1, ?_⟩
      simp [skip_whitespace_loop, hc, hs c (List.mem_cons_self c s), hrun]

theorem skip_whitespace_run {pre rest : List Char} {L : Lexer} (s : List Char)
    (h : At pre (s ++ rest) L) (hs : ∀ c ∈ s, is_whitespace c = true)
    (hstop : is_whitespace (rest.headD EOS_CHAR) = false) :
    ∃ L1, At (pre ++ s) rest L1 ∧ skip_whitespace L = L1 :=
  skip_whitespace_loop_run s pre rest L (remaining L) h hs hstop
    (by rw [remaining_of_at h]; simp)

/-! ## Cursor positions where the drive loop stalls -/

/-- At a `'-'` that is followed by neither `'>'`, a digit nor `'.'` the dispatch calls
no scanner: the pass ends with the cursor and the deque unchanged. -/
theorem loop_body_at_minus {pre rest : List Char} {L : Lexer} (h : At pre ('-' :: rest) L)
    (h1 : rest.headD EOS_CHAR ≠ '>') (h2 : is_numeric (rest.headD EOS_CHAR) = false)
    (h3 : rest.headD EOS_CHAR ≠ '.') (fuel : Nat) (tokens : List Token) :
    loop_body fuel L tokens = some (Except.ok (L, tokens)) := by
  have hcur : cur_char L = '-' := cur_char_of_at_cons h
  have hla : lookahead_char L 1 = rest.headD EOS_CHAR := by
    rw [lookahead_of_at h]
    cases rest <;> rfl
  have hd : dispatch fuel L tokens = some (Except.ok (L, tokens)) := by
    generalize rest.headD EOS_CHAR = x at h1 h2 h3 hla
    have ha : is_alpha '-' = false := by decide
    unfold dispatch
    rw [hcur, hla]
    simp [h1, h2, h3, ha]
  have hws : skip_whitespace L = L := skip_whitespace_of_not_ws (by rw [hcur]; decide)
  simp [loop_body, hd, hws]

theorem tokenize_loop_at_minus {pre rest : List Char} {L : Lexer} (h : At pre ('-' :: rest) L)
    (h1 : rest.headD EOS_CHAR ≠ '>') (h2 : is_numeric (rest.headD EOS_CHAR) = false)
    (h3 : rest.headD EOS_CHAR ≠ '.') (fuel : Nat) (tokens : List Token) :
    tokenize_loop fuel L tokens = none :=
  tokenize_loop_stuck (done_of_at_cons h)
    (fun f ts => ⟨ts, loop_body_at_minus h h1 h2 h3 f ts⟩) fuel tokens

theorem end_of_line_loop_at_cr {L : Lexer} (h : cur_char L = '\r') (n : Nat) :
    end_of_line_loop n L = L := by
  cases n with
  | zero => rfl
  | succ n => simp [end_of_line_loop, h]

/-- At a carriage return `get_end_of_line` returns a token and consumes nothing: the
pass ends with the cursor unchanged and one more end-of-line token in the deque. -/
theorem loop_body_at_cr {pre rest : List Char} {L : Lexer} (h : At pre ('\r' :: rest) L)
    (fuel : Nat) (tokens : List Token) :
    loop_body fuel L tokens = some (Except.ok (L, tokens ++
      [{ type := TOKEN_EOL, line_num := L.line_num, col_num := L.col_num }])) := by
  have hcur : cur_char L = '\r' := cur_char_of_at_cons h
  have hd : dispatch fuel L tokens = some (Except.ok (L, tokens ++
      [{ type := TOKEN_EOL, line_num := L.line_num, col_num := L.col_num }])) := by
    unfold dispatch get_end_of_line
    rw [end_of_line_loop_at_cr hcur, hcur]
    rfl
  have hws : skip_whitespace L = L := skip_whitespace_of_not_ws (by rw [hcur]; decide)
  simp [loop_body, hd, hws]

theorem tokenize_loop_at_cr {pre rest : List Char} {L : Lexer} (h : At pre ('\r' :: rest) L)
    (fuel : Nat) (tokens : List Token) : tokenize_loop fuel L tokens = none :=
  tokenize_loop_stuck (done_of_at_cons h) (fun f ts => ⟨_, loop_body_at_cr h f ts⟩) fuel tokens

theorem comment_loop_at_end {pre : List Char} {L : Lexer} (h : At pre [] L) (fuel : Nat) :
    comment_loop fuel L = none := by
  induction fuel with
  | zero => rfl
  | succ fuel ih =>
    have hcur : cur_char L = EOS_CHAR := cur_char_of_at_nil h
    unfold comment_loop
    rw [hcur, advance_char_of_at_nil h, ih]
    rfl

/-- An identifier-shaped word followed by text that does not continue it: the first
pass of the drive loop appends its token and leaves the cursor behind the word and
the blanks `ws` that follow it. -/
theorem loop_body_identifier {pre rest : List Char} {L : Lexer} (c : Char) (cs ws : List Char)
    (h : At pre (c :: cs ++ (ws ++ rest)) L) (hc : is_alpha c = true)
    (hcs : ∀ x ∈ cs, is_alphanumeric x = true) (hws : ∀ x ∈ ws, is_whitespace x = true)
    (hstop : is_alphanumeric ((ws ++ rest).headD EOS_CHAR) = false)
    (hstop2 : is_whitespace (rest.headD EOS_CHAR) = false) (fuel : Nat) (tokens : List Token) :
    ∃ L1, At (pre ++ c :: cs ++ ws) rest L1 ∧
      loop_body fuel L tokens = some (Except.ok (L1, tokens ++
        [{ type := if c :: cs = "let".toList then TOKEN_KEYWORD_LET
                   else if c :: cs = "if".toList then TOKEN_KEYWORD_IF else TOKEN_IDENT,
           string_value := c :: cs, line_num := L.line_num, col_num := L.col_num }])) := by
  obtain ⟨L1, hL1, hrun⟩ := get_identifier_or_keyword_run c cs h hc hcs hstop
  obtain ⟨L2, hL2, hskip⟩ := skip_whitespace_run ws hL1 hws hstop2
  have hcur : cur_char L = c := cur_char_of_at_cons (by simpa using h)
  refine ⟨L2, by simpa using hL2, ?_⟩
  unfold loop_body dispatch
  rw [hcur, hc, hrun]
  simp [push_back, hskip]



/-! ## Termination of the drive loop (C1), subtraction (C3), line ends (C10) -/

/-- C1 fails on the code: on the one-character buffers `-` and CR a pass of the drive
loop ends without an error and with the cursor still at offset 0 (for `-` no scanner
is called, for CR `get_end_of_line` appends a token and consumes nothing), and on the
buffer `#` the comment loop of the pass never exits; on none of the three buffers
does `tokenize_stream` return, whatever the budget. -/
theorem C1_drive_loop_stalls :
    (∀ fuel tokens, loop_body fuel (Lexer.init "-".toList) tokens =
        some (Except.ok (Lexer.init "-".toList, tokens))) ∧
    (∀ fuel, tokenize_stream fuel "-".toList = none) ∧
    (∀ fuel tokens, loop_body fuel (Lexer.init "\r".toList) tokens =
        some (Except.ok (Lexer.init "\r".toList,
          tokens ++ [{ type := TOKEN_EOL, line_num := 1, col_num := 1 }]))) ∧
    (∀ fuel, tokenize_stream fuel "\r".toList = none) ∧
    (∀ fuel, tokenize_stream fuel "#".toList = none) := by
  have hm : At [] ('-' :: []) (Lexer.init "-".toList) := at_init _
  have hr : At [] ('\r' :: []) (Lexer.init "\r".toList) := at_init _
  refine ⟨fun fuel tokens => loop_body_at_minus hm (by decide) (by decide) (by decide) fuel tokens,
    fun fuel => tokenize_loop_at_minus hm (by decide) (by decide) (by decide) fuel [],
    fun fuel tokens => loop_body_at_cr hr fuel tokens,
    fun fuel => tokenize_loop_at_cr hr fuel [], ?_⟩
  intro fuel
  cases fuel with
  | zero => rfl
  | succ fuel =>
    have h0 : At [] ('#' :: []) (Lexer.init "#".toList) := at_init _
    have h1 : At ([] ++ ['#']) [] (advance_char (Lexer.init "#".toList)) :=
      advance_char_of_at_cons h0
    have hc : comment_loop fuel (advance_char (Lexer.init "#".toList)) = none :=
      comment_loop_at_end h1 fuel
    have hd : dispatch fuel (Lexer.init "#".toList) [] = none := by
      unfold dispatch
      rw [hc]
      rfl
    exact tokenize_loop_none (done_of_at_cons h0) hd

/-- C3 fails on the code: for every identifier-shaped word `c :: cs` and every text
`b`, `tokenize_stream` never returns on `c :: cs ++ " - " ++ b`: once the cursor is at
the `'-'`, which a blank follows, the dispatch calls no scanner and the drive loop
repeats the same pass. -/
theorem C3_minus_operator_never_scanned (c : Char) (cs b : List Char) (hc : is_alpha c = true)
    (hcs : ∀ x ∈ cs, is_alphanumeric x = true) (fuel : Nat) :
    tokenize_stream fuel (c :: cs ++ " - ".toList ++ b) = none := by
  cases fuel with
  | zero => rfl
  | succ fuel =>
    have h0 : At [] (c :: cs ++ ([' '] ++ ('-' :: ' ' :: b)))
        (Lexer.init (c :: cs ++ " - ".toList ++ b)) := by
      have := at_init (c :: cs ++ " - ".toList ++ b)
      simpa using this
    have e1 : is_alphanumeric ' ' = false := by decide
    have e2 : is_whitespace '-' = false := by decide
    have e3 : ' ' ≠ '>' := by decide
    have e4 : is_numeric ' ' = false := by decide
    have e5 : ' ' ≠ '.' := by decide
    obtain ⟨L1, hL1, hbody⟩ := loop_body_identifier c cs [' '] h0 hc hcs (by decide)
      e1 e2 fuel []
    have hd : done (Lexer.init (c :: cs ++ " - ".toList ++ b)) = false := by
      simp [done, Lexer.init]
    unfold tokenize_stream
    rw [tokenize_loop_step hd hbody]
    exact tokenize_loop_at_minus hL1 e3 e4 e5 fuel _

/-- C3, at the buffer `a - b` with a budget of 1000 loop tests. -/
theorem C3_minus_operator_never_scanned_witness :
    tokenize_stream 1000 "a - b".toList = none :=
  C3_minus_operator_never_scanned 'a' [] "b".toList (by decide) (by decide) 1000

/-- C10 fails on the code: `tokenize_stream` never returns on the buffer CR LF, nor
on `c :: cs ++ CR LF ++ b` for an identifier-shaped word `c :: cs` and any text `b`:
at the carriage return `get_end_of_line` consumes nothing and the drive loop repeats
the same pass. -/
theorem C10_carriage_return_never_consumed :
    (∀ fuel, tokenize_stream fuel "\r\n".toList = none) ∧
    (∀ (c : Char) (cs b : List Char), is_alpha c = true →
      (∀ x ∈ cs, is_alphanumeric x = true) →
      ∀ fuel, tokenize_stream fuel (c :: cs ++ "\r\n".toList ++ b) = none) := by
  constructor
  · intro fuel
    have h : At [] ('\r' :: ['\n']) (Lexer.init "\r\n".toList) := at_init _
    exact tokenize_loop_at_cr h fuel []
  · intro c cs b hc hcs fuel
    cases fuel with
    | zero => rfl
    | succ fuel =>
      have h0 : At [] (c :: cs ++ ([] ++ ('\r' :: '\n' :: b)))
          (Lexer.init (c :: cs ++ "\r\n".toList ++ b)) := by
        have := at_init (c :: cs ++ "\r\n".toList ++ b)
        simpa using this
      have e1 : is_alphanumeric '\r' = false := by decide
      have e2 : is_whitespace '\r' = false := by decide
      obtain ⟨L1, hL1, hbody⟩ := loop_body_identifier c cs [] h0 hc hcs (by simp)
        e1 e2 fuel []
      have hd : done (Lexer.init (c :: cs ++ "\r\n".toList ++ b)) = false := by
        simp [done, Lexer.init]
      unfold tokenize_stream
      rw [tokenize_loop_step hd hbody]
      exact tokenize_loop_at_cr hL1 fuel _

/-- C10, at the buffer `a` CR LF `b` with a budget of 1000 loop tests. -/
theorem C10_carriage_return_never_consumed_witness :
    tokenize_stream 1000 "a\r\nb".toList = none :=
  C10_carriage_return_never_consumed.2 'a' [] "b".toList (by decide) (by decide) 1000

/-! ## Two-character operators (C4) and the range of integer literals (C6) -/

/-- C4 fails on the code for `!=`: the buffers `==`, `<=` and `>=` are tokenized to one
token of the kind the table gives them, but `'!'` is not an operator character for
the dispatch, so `!=` goes to `get_punctuation` and is refused as an unrecognized
character. -/
theorem C4_not_equals_is_refused (fuel : Nat) :
    tokenize_stream (fuel + 1) "!=".toList = some (Except.error unrecognized_character) ∧
    reserved_find "!=".toList = some TOKEN_OPERATOR_NOT_EQUALS ∧
    tokenize_stream (fuel + 2) "==".toList = some (Except.ok
      [{ type := TOKEN_OPERATOR_EQUALS, string_value := "==".toList, line_num := 1, col_num := 1 },
        eof_token]) ∧
    tokenize_stream (fuel + 2) "<=".toList = some (Except.ok
      [{ type := TOKEN_OPERATOR_LESS_EQ, string_value := "<=".toList, line_num := 1, col_num := 1 },
        eof_token]) ∧
    tokenize_stream (fuel + 2) ">=".toList = some (Except.ok
      [{ type := TOKEN_OPERATOR_GREATER_EQ, string_value := ">=".toList, line_num := 1,
         col_num := 1 }, eof_token]) :=
  ⟨rfl, rfl, rfl, rfl, rfl⟩

/-- C6 fails on the code at the least `int`: on the text `-2147483648` the scanner
hands the digits `2147483648` to `std::stoi` before it applies the sign, and the run
ends with `std::out_of_range`; the text `-2147483647` gives the int-literal. -/
theorem C6_int_min_is_out_of_range (fuel : Nat) :
    tokenize_stream (fuel + 1) "-2147483648".toList = some (Except.error out_of_range) ∧
    tokenize_stream (fuel + 2) "-2147483647".toList = some (Except.ok
      [{ type := TOKEN_INT_LITERAL, int_value := -2147483647, line_num := 1, col_num := 1 },
        eof_token]) :=
  ⟨rfl, rfl⟩


/-! ## String literals (C9) -/

theorem get_string_literal_closed {pre rest : List Char} {L : Lexer} (s : List Char)
    (h : At pre ('\"' :: s ++ '\"' :: rest) L) (hs : ∀ c ∈ s, c ≠ '\"') :
    ∃ L1, At (pre ++ ('\"' :: s ++ ['\"'])) rest L1 ∧
      get_string_literal L = Except.ok (L1,
        { type := TOKEN_STR_LITERAL, string_value := '\"' :: s ++ ['\"'],
          line_num := L.line_num, col_num := L.col_num }) := by
  have h0 : At pre ('\"' :: (s ++ '\"' :: rest)) L := by simpa using h
  have hcur : cur_char L = '\"' := cur_char_of_at_cons h0
  have h1 := advance_char_of_at_cons h0
  obtain ⟨L2, hL2, hrun⟩ := string_loop_run s (pre ++ ['\"']) ('\"' :: rest) (advance_char L)
    ['\"'] (remaining (advance_char L)) h1 hs (Or.inr rfl) (by rw [remaining_of_at h1]; simp)
  have hcur2 : cur_char L2 = '\"' := cur_char_of_at_cons hL2
  refine ⟨advance_char L2, by simpa using advance_char_of_at_cons hL2, ?_⟩
  unfold get_string_literal
  simp [hcur, hrun, hcur2]

theorem get_string_literal_open {pre : List Char} {L : Lexer} (s : List Char)
    (h : At pre ('\"' :: s) L) (hs : ∀ c ∈ s, c ≠ '\"') :
    get_string_literal L = Except.error no_matching_quote := by
  have hcur : cur_char L = '\"' := cur_char_of_at_cons h
  have h1 : At (pre ++ ['\"']) (s ++ []) (advance_char L) := by
    simpa using advance_char_of_at_cons h
  obtain ⟨L2, hL2, hrun⟩ := string_loop_run s (pre ++ ['\"']) [] (advance_char L)
    ['\"'] (remaining (advance_char L)) h1 hs (Or.inl rfl) (by rw [remaining_of_at h1]; simp)
  have hcur2 : cur_char L2 = EOS_CHAR := cur_char_of_at_nil hL2
  have hne : (EOS_CHAR == '\"') = false := by decide
  unfold get_string_literal
  simp [hcur, hrun, hcur2, hne]

theorem dispatch_at_quote {L : Lexer} (h : cur_char L = '\"') (fuel : Nat)
    (tokens : List Token) : dispatch fuel L tokens = push_back tokens (get_string_literal L) := by
  unfold dispatch
  rw [h]
  rfl

/-- C9: for every text `s` without a double quote, the buffer `"s"` is tokenized (with
any budget of at least two loop tests) to one string-literal whose lexeme is the whole
buffer, both quotes included and `s` unchanged, followed by end-of-stream; and the
buffer `"s` without the closing quote ends in the no-matching-quote error. -/
theorem C9_string_literal (s : List Char) (hs : ∀ c ∈ s, c ≠ '\"') (fuel : Nat) :
    tokenize_stream (fuel + 2) ('\"' :: s ++ ['\"']) = some (Except.ok
      [{ type := TOKEN_STR_LITERAL, string_value := '\"' :: s ++ ['\"'],
         line_num := 1, col_num := 1 }, eof_token]) ∧
    tokenize_stream (fuel + 1) ('\"' :: s) = some (Except.error no_matching_quote) := by
  constructor
  · have h0 := at_init ('\"' :: s ++ ['\"'])
    obtain ⟨L1, hL1, hrun⟩ := get_string_literal_closed s h0 hs
    have hcur : cur_char (Lexer.init ('\"' :: s ++ ['\"'])) = '\"' :=
      cur_char_of_at_cons (by simpa using h0)
    have hd : dispatch (fuel + 1) (Lexer.init ('\"' :: s ++ ['\"'])) [] = some (Except.ok (L1,
        [{ type := TOKEN_STR_LITERAL, string_value := '\"' :: s ++ ['\"'],
           line_num := 1, col_num := 1 }])) := by
      rw [dispatch_at_quote hcur, hrun]
      rfl
    exact tokenize_loop_last (by simp [done, Lexer.init]) hd hL1
  · have h0 := at_init ('\"' :: s)
    have hcur : cur_char (Lexer.init ('\"' :: s)) = '\"' := cur_char_of_at_cons h0
    have hd : dispatch fuel (Lexer.init ('\"' :: s)) [] =
        some (Except.error no_matching_quote) := by
      rw [dispatch_at_quote hcur, get_string_literal_open s h0 hs]
      rfl
    exact tokenize_loop_error (done_of_at_cons h0) hd

/-- C9, at a literal that holds a line feed: `"ab` LF `c"` and `"ab` LF `c`. -/
theorem C9_string_literal_witness :
    tokenize_stream 2 "\"ab\nc\"".toList = some (Except.ok
      [{ type := TOKEN_STR_LITERAL, string_value := "\"ab\nc\"".toList,
         line_num := 1, col_num := 1 }, eof_token]) ∧
    tokenize_stream 1 "\"ab\nc".toList = some (Except.error no_matching_quote) :=
  C9_string_literal "ab\nc".toList (by decide) 0



/-! ## Numeric literals (C7, C8) -/

theorem numeric_bounds {c : Char} (h : is_numeric c = true) : 48 ≤ c.toNat ∧ c.toNat ≤ 57 := by
  have e0 : '0'.toNat = 48 := rfl
  have e9 : '9'.toNat = 57 := rfl
  simp only [is_numeric, Bool.and_eq_true, decide_eq_true_eq, e0, e9] at h
  exact h

theorem not_alpha_of_numeric {c : Char} (h : is_numeric c = true) : is_alpha c = false := by
  have hb := numeric_bounds h
  have eA : 'A'.toNat = 65 := rfl
  have eZ : 'Z'.toNat = 90 := rfl
  have ea : 'a'.toNat = 97 := rfl
  have ez : 'z'.toNat = 122 := rfl
  rw [Bool.eq_false_iff]
  intro ha
  simp only [is_alpha, Bool.or_eq_true, Bool.and_eq_true, decide_eq_true_eq, beq_iff_eq,
    eA, eZ, ea, ez] at ha
  rcases ha with (⟨h1, _⟩ | ⟨h1, _⟩) | h1
  · omega
  · omega
  · subst h1
    revert h
    decide

theorem ne_of_numeric {c d : Char} (h : is_numeric c = true) (hd : is_numeric d = false) :
    c ≠ d := by
  rintro rfl
  rw [h] at hd
  exact Bool.noConfusion hd

theorem not_operator_of_numeric {c : Char} (h : is_numeric c = true) : is_operator c = false := by
  have h1 : c ≠ '=' := ne_of_numeric h (by decide)
  have h2 : c ≠ '<' := ne_of_numeric h (by decide)
  have h3 : c ≠ '>' := ne_of_numeric h (by decide)
  have h4 : c ≠ '+' := ne_of_numeric h (by decide)
  have h5 : c ≠ '-' := ne_of_numeric h (by decide)
  have h6 : c ≠ '*' := ne_of_numeric h (by decide)
  have h7 : c ≠ '/' := ne_of_numeric h (by decide)
  have h8 : c ≠ '^' := ne_of_numeric h (by decide)
  simp [is_operator, is_comparator, is_arithmetic_operator, h1, h2, h3, h4, h5, h6, h7, h8]

theorem numeric_loop_stop {L : Lexer} (h : is_numeric (cur_char L) = false) (n : Nat)
    (acc : List Char) : numeric_loop n L acc = (L, acc) := by
  cases n with
  | zero => rfl
  | succ n => simp [numeric_loop, h]

theorem takeWhile_numeric_self {d : List Char} (hd : ∀ c ∈ d, is_numeric c = true) :
    d.takeWhile is_numeric = d :=
  List.takeWhile_eq_self_iff.mpr hd

theorem stoi_digits {d : List Char} (hne : d ≠ []) (hd : ∀ c ∈ d, is_numeric c = true)
    (hv : digits_value d ≤ INT_MAX) : stoi d = Except.ok (digits_value d : Int) := by
  unfold stoi
  simp only [takeWhile_numeric_self hd]
  have h1 : d.isEmpty = false := by
    cases d with
    | nil => exact absurd rfl hne
    | cons c cs => rfl
  have h2 : ¬ digits_value d > INT_MAX := by omega
  simp [h1, h2]

/-- The sign and the integer digits of `get_numeric_literal`: with the cursor at a
literal `sg ++ d` (the sign `sg` empty or `-`, digits `d`, at least one digit when
there is no sign), the first loop stops behind `d`. -/
theorem numeric_sign_digits {pre rest : List Char} {L : Lexer} (sg d : List Char)
    (h : At pre (sg ++ d ++ rest) L) (hsg : (sg = [] ∧ d ≠ []) ∨ sg = ['-'])
    (hd : ∀ c ∈ d, is_numeric c = true) (hstop : is_numeric (rest.headD EOS_CHAR) = false) :
    ∃ L2, At (pre ++ sg ++ d) rest L2 ∧
      (((cur_char L == '-') = false ∧ sg = [] ∧ numeric_loop (remaining L) L [] = (L2, d)) ∨
       ((cur_char L == '-') = true ∧ sg = ['-'] ∧
          numeric_loop (remaining (advance_char L)) (advance_char L) [] = (L2, d))) := by
  rcases hsg with ⟨rfl, hne⟩ | rfl
  · obtain ⟨c, cs, rfl⟩ := List.exists_cons_of_ne_nil hne
    have h0 : At pre (c :: (cs ++ rest)) L := by simpa using h
    have hcur : cur_char L = c := cur_char_of_at_cons h0
    have hc : (c == '-') = false := by
      rw [beq_eq_false_iff_ne]
      exact ne_of_numeric (hd c (List.mem_cons_self c cs)) (by decide)
    obtain ⟨L2, hL2, hrun⟩ := numeric_loop_run (c :: cs) pre rest L [] (remaining L)
      (by simpa using h) hd hstop (by rw [remaining_of_at h]; simp)
    refine ⟨L2, by simpa using hL2, Or.inl ⟨?_, rfl, ?_⟩⟩
    · rw [hcur, hc]
    · simpa using hrun
  · have h0 : At pre ('-' :: (d ++ rest)) L := by simpa using h
    have hcur : cur_char L = '-' := cur_char_of_at_cons h0
    have h1 := advance_char_of_at_cons h0
    obtain ⟨L2, hL2, hrun⟩ := numeric_loop_run d (pre ++ ['-']) rest (advance_char L) []
      (remaining (advance_char L)) h1 hd hstop (by rw [remaining_of_at h1]; simp)
    refine ⟨L2, by simpa using hL2, Or.inr ⟨?_, rfl, ?_⟩⟩
    · rw [hcur]
      rfl
    · simpa using hrun

/-- An integer literal: digits that no decimal point follows. -/
theorem get_numeric_literal_int {pre rest : List Char} {L : Lexer} (sg d : List Char)
    (h : At pre (sg ++ d ++ rest) L) (hsg : (sg = [] ∧ d ≠ []) ∨ sg = ['-'])
    (hd : ∀ c ∈ d, is_numeric c = true) (hstop : is_numeric (rest.headD EOS_CHAR) = false)
    (hdot : rest.headD EOS_CHAR ≠ '.') :
    ∃ L2, At (pre ++ sg ++ d) rest L2 ∧
      get_numeric_literal L =
        match stoi d with
        | Except.ok v => Except.ok (L2,
            { type := TOKEN_INT_LITERAL, int_value := v * (if sg = ['-'] then -1 else 1),
              line_num := L.line_num, col_num := L.col_num })
        | Except.error e => Except.error e := by
  obtain ⟨L2, hL2, hcases⟩ := numeric_sign_digits sg d h hsg hd hstop
  have hcur2 : cur_char L2 = rest.headD EOS_CHAR := cur_char_of_at hL2
  have hnd : (cur_char L2 == '.') = false := by
    rw [hcur2, beq_eq_false_iff_ne]
    exact hdot
  have hstop2 : is_numeric (cur_char L2) = false := by rw [hcur2]; exact hstop
  refine ⟨L2, hL2, ?_⟩
  unfold get_numeric_literal
  rcases hcases with ⟨hm, rfl, hrun⟩ | ⟨hm, rfl, hrun⟩
  · simp only [hm, Bool.false_eq_true, ↓reduceIte, hrun, hnd, Bool.false_and,
      numeric_loop_stop hstop2]
    cases stoi d <;> simp
  · simp only [hm, ↓reduceIte, hrun, hnd, Bool.false_and, Bool.false_eq_true,
      numeric_loop_stop hstop2]

/-- A float literal: digits, a decimal point, at least one digit. -/
theorem get_numeric_literal_float {pre rest : List Char} {L : Lexer} (sg d e : List Char)
    (h : At pre (sg ++ d ++ ('.' :: e ++ rest)) L) (hsg : (sg = [] ∧ d ≠ []) ∨ sg = ['-'])
    (hd : ∀ c ∈ d, is_numeric c = true) (he : ∀ c ∈ e, is_numeric c = true) (hne : e ≠ [])
    (hstop : is_numeric (rest.headD EOS_CHAR) = false) :
    ∃ L4, At (pre ++ sg ++ d ++ ('.' :: e)) rest L4 ∧
      get_numeric_literal L =
        match stof (d ++ '.' :: e) with
        | Except.ok v => Except.ok (L4,
            { type := TOKEN_FLOAT_LITERAL,
              float_value := ⟨v.mantissa * (if sg = ['-'] then -1 else 1), v.scale⟩,
              line_num := L.line_num, col_num := L.col_num })
        | Except.error x => Except.error x := by
  have hpt : is_numeric '.' = false := by decide
  obtain ⟨L2, hL2, hcases⟩ := numeric_sign_digits sg d h hsg hd hpt
  obtain ⟨c, cs, rfl⟩ := List.exists_cons_of_ne_nil hne
  have hL2' : At (pre ++ sg ++ d) ('.' :: c :: (cs ++ rest)) L2 := by simpa using hL2
  have hcur2 : cur_char L2 = '.' := cur_char_of_at_cons hL2'
  have hla2 : lookahead_char L2 1 = c := by rw [lookahead_of_at hL2']; rfl
  have hc : is_numeric c = true := he c (List.mem_cons_self c cs)
  have h3 := advance_char_of_at_cons hL2'
  obtain ⟨L4, hL4, hrun4⟩ := numeric_loop_run (c :: cs) (pre ++ sg ++ d ++ ['.']) rest
    (advance_char L2) (d ++ ['.']) (remaining (advance_char L2)) (by simpa using h3) he hstop
    (by rw [remaining_of_at h3]; simp)
  have e1 : d ++ ['.'] ++ c :: cs = d ++ '.' :: c :: cs := by simp
  rw [e1] at hrun4
  have hdd : ('.' == '.') = true := rfl
  refine ⟨L4, by simpa using hL4, ?_⟩
  unfold get_numeric_literal
  rcases hcases with ⟨hm, rfl, hrun⟩ | ⟨hm, rfl, hrun⟩
  · simp only [hm, Bool.false_eq_true, ↓reduceIte, hrun, hcur2, hla2, hc, hdd, Bool.and_self,
      hrun4]
    cases stof (d ++ '.' :: c :: cs) <;> simp
  · simp only [hm, ↓reduceIte, hrun, hcur2, hla2, hc, hdd, Bool.and_self, hrun4]

/-- A decimal point that no digit follows. -/
theorem get_numeric_literal_trailing_dot {pre rest : List Char} {L : Lexer} (sg d : List Char)
    (h : At pre (sg ++ d ++ ('.' :: rest)) L) (hsg : (sg = [] ∧ d ≠ []) ∨ sg = ['-'])
    (hd : ∀ c ∈ d, is_numeric c = true) (hstop : is_numeric (rest.headD EOS_CHAR) = false) :
    get_numeric_literal L = Except.error trailing_dot := by
  have hpt : is_numeric '.' = false := by decide
  obtain ⟨L2, hL2, hcases⟩ := numeric_sign_digits sg d h hsg hd hpt
  have hcur2 : cur_char L2 = '.' := cur_char_of_at_cons hL2
  have hla2 : lookahead_char L2 1 = rest.headD EOS_CHAR := by
    rw [lookahead_of_at hL2]
    cases rest <;> rfl
  have hdd : ('.' == '.') = true := rfl
  unfold get_numeric_literal
  rcases hcases with ⟨hm, rfl, hrun⟩ | ⟨hm, rfl, hrun⟩
  · simp only [hm, Bool.false_eq_true, ↓reduceIte, hrun, hcur2, hla2, hstop, hdd,
      Bool.and_false, Bool.not_false, Bool.and_self]
  · simp only [hm, ↓reduceIte, hrun, hcur2, hla2, hstop, hdd, Bool.and_false,
      Bool.false_eq_true, Bool.not_false, Bool.and_self]

/-- The dispatch at the start of a numeric literal `sg ++ d` that `next` follows, where
`next` is a digit or a point when there is no digit in `d`. -/
theorem dispatch_at_numeric {pre rest : List Char} {L : Lexer} (sg d : List Char)
    (h : At pre (sg ++ d ++ rest) L) (hsg : (sg = [] ∧ d ≠ []) ∨ sg = ['-'])
    (hd : ∀ c ∈ d, is_numeric c = true) (hdot : d = [] → rest.headD EOS_CHAR = '.')
    (fuel : Nat) (tokens : List Token) :
    dispatch fuel L tokens = push_back tokens (get_numeric_literal L) := by
  rcases hsg with ⟨rfl, hne⟩ | rfl
  · obtain ⟨c, cs, rfl⟩ := List.exists_cons_of_ne_nil hne
    have h0 : At pre (c :: (cs ++ rest)) L := by simpa using h
    have hcur : cur_char L = c := cur_char_of_at_cons h0
    have hc : is_numeric c = true := hd c (List.mem_cons_self c cs)
    have hm : (c == '-') = false := by
      rw [beq_eq_false_iff_ne]
      exact ne_of_numeric hc (by decide)
    unfold dispatch
    simp [hcur, not_alpha_of_numeric hc, hm, not_operator_of_numeric hc, hc]
  · have h0 : At pre ('-' :: (d ++ rest)) L := by simpa using h
    have hcur : cur_char L = '-' := cur_char_of_at_cons h0
    have hla : lookahead_char L 1 = (d ++ rest).headD EOS_CHAR := by
      rw [lookahead_of_at h0]
      cases (d ++ rest) <;> rfl
    have ha : is_alpha '-' = false := by decide
    have hx : (is_numeric ((d ++ rest).headD EOS_CHAR) = true ∨
        (d ++ rest).headD EOS_CHAR = '.') ∧ (d ++ rest).headD EOS_CHAR ≠ '>' := by
      cases d with
      | nil =>
        have := hdot rfl
        simp only [List.nil_append]
        rw [this]
        exact ⟨Or.inr rfl, by decide⟩
      | cons c cs =>
        have hc : is_numeric c = true := hd c (List.mem_cons_self c cs)
        exact ⟨Or.inl hc, ne_of_numeric hc (by decide)⟩
    generalize (d ++ rest).headD EOS_CHAR = x at hla hx
    unfold dispatch
    rw [hcur, hla]
    rcases hx with ⟨hx1 | hx1, hx2⟩ <;> simp [ha, hx1, hx2]



/-- C7: a minus sign that a digit follows is folded into the literal.  For every
non-empty digit string `d` whose value is at most `2^31 - 1`, the buffer `-d` is
tokenized (with any budget of at least two loop tests) to one int-literal of value
minus the value of `d`, followed by end-of-stream: no operator token.  And the buffer
`let x = -3.14` is tokenized to keyword-let, the identifier `x`, operator-assign, one
float-literal of value `-314 / 10^2`, end-of-stream. -/
theorem C7_sign_folding (d : List Char) (hne : d ≠ []) (hd : ∀ c ∈ d, is_numeric c = true)
    (hv : digits_value d ≤ 2 ^ 31 - 1) (fuel : Nat) :
    tokenize_stream (fuel + 2) ('-' :: d) = some (Except.ok
      [{ type := TOKEN_INT_LITERAL, int_value := -(digits_value d : Int),
         line_num := 1, col_num := 1 }, eof_token]) ∧
    tokenize_stream (fuel + 5) "let x = -3.14".toList = some (Except.ok
      [{ type := TOKEN_KEYWORD_LET, string_value := "let".toList, line_num := 1, col_num := 1 },
       { type := TOKEN_IDENT, string_value := "x".toList, line_num := 1, col_num := 5 },
       { type := TOKEN_OPERATOR_ASSIGN, string_value := "=".toList, line_num := 1, col_num := 7 },
       { type := TOKEN_FLOAT_LITERAL, float_value := ⟨-314, 2⟩, line_num := 1, col_num := 9 },
       eof_token]) := by
  refine ⟨?_, rfl⟩
  have h0 : At [] (['-'] ++ d ++ []) (Lexer.init ('-' :: d)) := by
    simpa using at_init ('-' :: d)
  have hE : is_numeric EOS_CHAR = false := by decide
  have hE2 : EOS_CHAR ≠ '.' := by decide
  obtain ⟨L2, hL2, hrun⟩ := get_numeric_literal_int ['-'] d h0 (Or.inr rfl) hd hE hE2
  rw [stoi_digits hne hd hv] at hrun
  have hdisp : dispatch (fuel + 1) (Lexer.init ('-' :: d)) [] = some (Except.ok (L2,
      [{ type := TOKEN_INT_LITERAL, int_value := -(digits_value d : Int),
         line_num := 1, col_num := 1 }])) := by
    rw [dispatch_at_numeric ['-'] d h0 (Or.inr rfl) hd (fun hnil => absurd hnil hne), hrun]
    simp [push_back, Lexer.init]
  exact tokenize_loop_last (by simp [done, Lexer.init]) hdisp hL2

/-- C7, at the buffer `-5`. -/
theorem C7_sign_folding_witness :
    tokenize_stream 2 "-5".toList = some (Except.ok
      [{ type := TOKEN_INT_LITERAL, int_value := -5, line_num := 1, col_num := 1 },
        eof_token]) :=
  (C7_sign_folding "5".toList (by decide) (by decide) (by decide) 0).1

/-- C8 fails on the code as stated: the buffer `-.5`, a signed literal with no digit
before the point, is tokenized to one float-literal (of value `-5 / 10`). -/
theorem C8_no_digit_before_point_accepted :
    tokenize_stream 2 "-.5".toList = some (Except.ok
      [{ type := TOKEN_FLOAT_LITERAL, float_value := ⟨-5, 1⟩, line_num := 1, col_num := 1 },
        eof_token]) :=
  rfl

/-- C8 as amended: for a sign `sg` (empty or `-`) and digit strings `d` and `e` with
`sg ++ d` non-empty, the buffer `sg ++ d ++ "." ++ e` ends in the trailing-dot error
when `e` is empty, so that a token sequence is returned only if `e` is non-empty; and
when `e` is non-empty the run is decided by `std::stof` on `d ++ "." ++ e` alone: its
exception, or one float-literal with the sign applied followed by end-of-stream,
whether `d` is empty or not. -/
theorem C8_decimal_point (sg d e : List Char) (hsg : sg = [] ∨ sg = ['-'])
    (hd : ∀ c ∈ d, is_numeric c = true) (he : ∀ c ∈ e, is_numeric c = true)
    (hne : sg ++ d ≠ []) (fuel : Nat) :
    (e = [] → tokenize_stream (fuel + 1) (sg ++ d ++ '.' :: e) =
        some (Except.error trailing_dot)) ∧
    (∀ f tokens, tokenize_stream f (sg ++ d ++ '.' :: e) = some (Except.ok tokens) → e ≠ []) ∧
    (e ≠ [] → tokenize_stream (fuel + 2) (sg ++ d ++ '.' :: e) =
        match stof (d ++ '.' :: e) with
        | Except.ok v => some (Except.ok
            [{ type := TOKEN_FLOAT_LITERAL,
               float_value := ⟨v.mantissa * (if sg = ['-'] then -1 else 1), v.scale⟩,
               line_num := 1, col_num := 1 }, eof_token])
        | Except.error x => some (Except.error x)) := by
  have hsg2 : (sg = [] ∧ d ≠ []) ∨ sg = ['-'] := by
    rcases hsg with rfl | rfl
    · exact Or.inl ⟨rfl, by simpa using hne⟩
    · exact Or.inr rfl
  have hE : is_numeric EOS_CHAR = false := by decide
  have hdone : done (Lexer.init (sg ++ d ++ '.' :: e)) = false := by
    simp [done, Lexer.init]
  have hdotnext : d = [] → ('.' :: e).headD EOS_CHAR = '.' := fun _ => rfl
  have herr : ∀ f, e = [] → tokenize_stream (f + 1) (sg ++ d ++ '.' :: e) =
      some (Except.error trailing_dot) := by
    intro f he0
    subst he0
    have h0 : At [] (sg ++ d ++ ('.' :: [])) (Lexer.init (sg ++ d ++ ['.'])) := at_init _
    have hdisp : dispatch f (Lexer.init (sg ++ d ++ ['.'])) [] =
        some (Except.error trailing_dot) := by
      rw [dispatch_at_numeric sg d h0 hsg2 hd hdotnext,
        get_numeric_literal_trailing_dot sg d h0 hsg2 hd hE]
      rfl
    exact tokenize_loop_error hdone hdisp
  refine ⟨herr fuel, ?_, ?_⟩
  · intro f tokens hf he0
    cases f with
    | zero => simp [tokenize_stream, tokenize_loop] at hf
    | succ f =>
      rw [herr f he0] at hf
      simp at hf
  · intro he0
    have h0 : At [] (sg ++ d ++ ('.' :: e ++ [])) (Lexer.init (sg ++ d ++ '.' :: e)) := by
      simpa using at_init (sg ++ d ++ '.' :: e)
    obtain ⟨L4, hL4, hrun⟩ := get_numeric_literal_float sg d e h0 hsg2 hd he he0 hE
    have hdisp : dispatch (fuel + 1) (Lexer.init (sg ++ d ++ '.' :: e)) [] =
        push_back [] (get_numeric_literal (Lexer.init (sg ++ d ++ '.' :: e))) :=
      dispatch_at_numeric sg d h0 hsg2 hd (fun _ => by simp) (fuel + 1) []
    rw [hrun] at hdisp
    cases hst : stof (d ++ '.' :: e) with
    | error x =>
      rw [hst] at hdisp
      exact tokenize_loop_error hdone hdisp
    | ok v =>
      rw [hst] at hdisp
      exact tokenize_loop_last hdone hdisp hL4

/-- C8 as amended, at the buffers `-3.14`, `1.` and `-.5`. -/
theorem C8_decimal_point_witness :
    tokenize_stream 2 "-3.14".toList = some (Except.ok
      [{ type := TOKEN_FLOAT_LITERAL, float_value := ⟨-314, 2⟩, line_num := 1, col_num := 1 },
        eof_token]) ∧
    tokenize_stream 1 "1.".toList = some (Except.error trailing_dot) ∧
    tokenize_stream 2 "-.5".toList = some (Except.ok
      [{ type := TOKEN_FLOAT_LITERAL, float_value := ⟨-5, 1⟩, line_num := 1, col_num := 1 },
        eof_token]) :=
  ⟨(C8_decimal_point "-".toList "3".toList "14".toList (Or.inr rfl) (by decide) (by decide)
      (by decide) 0).2.2 (by decide),
   (C8_decimal_point [] "1".toList [] (Or.inl rfl) (by decide) (by decide)
      (by decide) 0).1 rfl,
   (C8_decimal_point "-".toList [] "5".toList (Or.inr rfl) (by decide) (by decide)
      (by decide) 0).2.2 (by decide)⟩


/-! ## Characters no scanner claims (C16), a lone colon (C15), lexemes of numbers (C18) -/

/-- C16: a buffer whose first character is not a letter, underscore or digit, not one
of `= < > + - * / ^`, not `"`, `#`, `(`, `)`, an opening or closing brace, `:`, `@`,
CR or LF, ends in the unrecognized-character error, whatever follows the character and
with any budget of at least one loop test. -/
theorem C16_unclaimed_character (c : Char) (rest : List Char) (ha : is_alpha c = false)
    (hn : is_numeric c = false) (ho : is_operator c = false)
    (hc : c ∉ ['\"', '#', '(', ')', '\x7b', '\x7d', ':', '@', '\r', '\n']) (fuel : Nat) :
    tokenize_stream (fuel + 1) (c :: rest) = some (Except.error unrecognized_character) := by
  have h0 := at_init (c :: rest)
  have hcur : cur_char (Lexer.init (c :: rest)) = c := cur_char_of_at_cons h0
  simp only [List.mem_cons, List.mem_singleton, List.not_mem_nil, or_false, not_or] at hc
  obtain ⟨h1, h2, h3, h4, h5, h6, h7, h8, h9, h10⟩ := hc
  have hm : c ≠ '-' := by
    rintro rfl
    revert ho
    decide
  have hp : get_punctuation (Lexer.init (c :: rest)) = Except.error unrecognized_character := by
    unfold get_punctuation
    simp [hcur, h3, h4, h5, h6, h7, h8, hm]
  have hd : dispatch fuel (Lexer.init (c :: rest)) [] =
      some (Except.error unrecognized_character) := by
    unfold dispatch
    rw [hcur, hp]
    simp [ha, hn, ho, h1, h2, h9, h10, hm, push_back]
  exact tokenize_loop_error (done_of_at_cons h0) hd

/-- C16, at the buffers `$` and ` x` (a leading blank). -/
theorem C16_unclaimed_character_witness :
    tokenize_stream 1 "$".toList = some (Except.error unrecognized_character) ∧
    tokenize_stream 1 " x".toList = some (Except.error unrecognized_character) :=
  ⟨C16_unclaimed_character '$' [] (by decide) (by decide) (by decide) (by decide) 0,
   C16_unclaimed_character ' ' "x".toList (by decide) (by decide) (by decide) (by decide) 0⟩

/-- The lexeme of a token of `get_numeric_literal` is the one of a fresh token, the
empty string: the scanner never assigns `string_value`. -/
theorem get_numeric_literal_lexeme {L L1 : Lexer} {t : Token}
    (h : get_numeric_literal L = Except.ok (L1, t)) : t.string_value = [] := by
  unfold get_numeric_literal at h
  simp only at h
  repeat' split at h
  all_goals first
    | (simp only [Except.ok.injEq, Prod.mk.injEq] at h
       rw [← h.2])
    | simp at h

/-- C18 fails on the code: the buffers `5` and `3.14` are tokenized to one numeric
literal and end-of-stream, and the lexeme of the literal is empty, not the buffer;
`get_numeric_literal` builds the text in `num_literal` and never stores it in the
token (every token it returns has an empty `string_value`). -/
theorem C18_numeric_lexeme_is_empty :
    (∀ fuel, tokenize_stream (fuel + 2) "5".toList = some (Except.ok
      [{ type := TOKEN_INT_LITERAL, string_value := [], int_value := 5,
         line_num := 1, col_num := 1 }, eof_token])) ∧
    (∀ fuel, tokenize_stream (fuel + 2) "3.14".toList = some (Except.ok
      [{ type := TOKEN_FLOAT_LITERAL, string_value := [], float_value := ⟨314, 2⟩,
         line_num := 1, col_num := 1 }, eof_token])) ∧
    (∀ (L L1 : Lexer) (t : Token),
      get_numeric_literal L = Except.ok (L1, t) → t.string_value = []) :=
  ⟨fun _ => rfl, fun _ => rfl, fun _ _ _ h => get_numeric_literal_lexeme h⟩


/-! ## Runs of line feeds (C11) -/

theorem end_of_line_loop_run (n : Nat) :
    ∀ (pre rest : List Char) (L : Lexer) (m : Nat),
      At pre (List.replicate n '\n' ++ rest) L → rest.headD EOS_CHAR ≠ '\n' → n ≤ m →
      ∃ L1, At (pre ++ List.replicate n '\n') rest L1 ∧ end_of_line_loop m L = L1 := by
  induction n with
  | zero =>
    intro pre rest L m h hstop _
    have h0 : At pre rest L := by simpa using h
    refine ⟨L, by simpa using h0, ?_⟩
    cases m with
    | zero => rfl
    | succ m =>
      have hcur : (cur_char L == '\n') = false := by
        rw [cur_char_of_at h0, beq_eq_false_iff_ne]
        exact hstop
      simp [end_of_line_loop, hcur]
  | succ n ih =>
    intro pre rest L m h hstop hm
    cases m with
    | zero => simp at hm
    | succ m =>
      have h0 : At pre ('\n' :: (List.replicate n '\n' ++ rest)) L := by
        simpa [List.replicate_succ] using h
      have hc : cur_char L = '\n' := cur_char_of_at_cons h0
      obtain ⟨L1, hL1, hrun⟩ := ih (pre ++ ['\n']) rest (advance_char L) m
        (advance_char_of_at_cons h0) hstop (by omega)
      refine ⟨L1, by simpa [List.replicate_succ] using hL1, ?_⟩
      simp [end_of_line_loop, hc, hrun]

theorem dispatch_at_line_feed {L : Lexer} (h : cur_char L = '\n') (fuel : Nat)
    (tokens : List Token) : dispatch fuel L tokens = push_back tokens (get_end_of_line L) := by
  unfold dispatch
  rw [h]
  rfl

/-- A run of `n + 1` line feeds that no line feed follows: one pass of the drive loop
consumes the whole run (and the blanks `ws` behind it) and appends one end-of-line
token. -/
theorem loop_body_line_feeds {pre rest : List Char} {L : Lexer} (n : Nat) (ws : List Char)
    (h : At pre (List.replicate (n + 1) '\n' ++ (ws ++ rest)) L)
    (hws : ∀ x ∈ ws, is_whitespace x = true)
    (hstop : (ws ++ rest).headD EOS_CHAR ≠ '\n')
    (hstop2 : is_whitespace (rest.headD EOS_CHAR) = false) (fuel : Nat) (tokens : List Token) :
    ∃ L1, At (pre ++ List.replicate (n + 1) '\n' ++ ws) rest L1 ∧
      loop_body fuel L tokens = some (Except.ok (L1, tokens ++
        [{ type := TOKEN_EOL, line_num := L.line_num, col_num := L.col_num }])) := by
  have h0 : At pre ('\n' :: (List.replicate n '\n' ++ (ws ++ rest))) L := by
    simpa [List.replicate_succ] using h
  have hcur : cur_char L = '\n' := cur_char_of_at_cons h0
  obtain ⟨L1, hL1, hrun⟩ := end_of_line_loop_run (n + 1) pre (ws ++ rest) L (remaining L) h hstop
    (by rw [remaining_of_at h]; simp)
  obtain ⟨L2, hL2, hskip⟩ := skip_whitespace_run ws hL1 hws hstop2
  refine ⟨L2, hL2, ?_⟩
  have hg : get_end_of_line L = Except.ok (L1,
      { type := TOKEN_EOL, line_num := L.line_num, col_num := L.col_num }) := by
    unfold get_end_of_line
    rw [hcur, hrun]
    rfl
  unfold loop_body
  rw [dispatch_at_line_feed hcur, hg]
  simp [push_back, hskip]

/-- C11 fails on the code as stated: the buffer of two line feeds is tokenized to one
end-of-line token and end-of-stream, not to two end-of-line tokens. -/
theorem C11_two_line_feeds_one_token :
    tokenize_stream 3 "\n\n".toList = some (Except.ok
      [{ type := TOKEN_EOL, line_num := 1, col_num := 1 }, eof_token]) :=
  rfl

/-- C11 as amended: the end-of-line scanner consumes a whole run of line feeds in one
call; for every `n ≥ 1` (written `n + 1`), the buffer of `n` consecutive line feeds is
tokenized, with any budget of at least two loop tests, to exactly one end-of-line
token (at line 1, column 1) followed by end-of-stream. -/
theorem C11_line_feed_run_one_token (n fuel : Nat) :
    tokenize_stream (fuel + 2) (List.replicate (n + 1) '\n') = some (Except.ok
      [{ type := TOKEN_EOL, line_num := 1, col_num := 1 }, eof_token]) := by
  have h0 : At [] (List.replicate (n + 1) '\n' ++ ([] ++ []))
      (Lexer.init (List.replicate (n + 1) '\n')) := by
    simpa using at_init (List.replicate (n + 1) '\n')
  have hE : EOS_CHAR ≠ '\n' := by decide
  have hE2 : is_whitespace EOS_CHAR = false := by decide
  obtain ⟨L1, hL1, hbody⟩ := loop_body_line_feeds n [] h0 (by simp) hE hE2 (fuel + 1) []
  have hd : done (Lexer.init (List.replicate (n + 1) '\n')) = false := by
    simp [done, Lexer.init]
  unfold tokenize_stream
  rw [tokenize_loop_step hd hbody]
  exact tokenize_loop_done (done_of_at_nil hL1) fuel _


/-! ## Passes of the drive loop over a number, an arrow, a comment -/

/-- An integer literal `sg ++ d` with at least one digit, whose value fits an `int`,
followed by blanks `ws`: one pass of the drive loop appends its int-literal token and
leaves the cursor behind the blanks. -/
theorem loop_body_int_literal {pre rest : List Char} {L : Lexer} (sg d ws : List Char)
    (h : At pre (sg ++ d ++ (ws ++ rest)) L) (hsg : sg = [] ∨ sg = ['-']) (hne : d ≠ [])
    (hd : ∀ c ∈ d, is_numeric c = true) (hv : digits_value d ≤ INT_MAX)
    (hws : ∀ x ∈ ws, is_whitespace x = true)
    (hstop : is_numeric ((ws ++ rest).headD EOS_CHAR) = false)
    (hdot : (ws ++ rest).headD EOS_CHAR ≠ '.')
    (hstop2 : is_whitespace (rest.headD EOS_CHAR) = false) :
    ∃ L1, At (pre ++ sg ++ d ++ ws) rest L1 ∧ ∀ (fuel : Nat) (tokens : List Token),
      loop_body fuel L tokens = some (Except.ok (L1, tokens ++
        [{ type := TOKEN_INT_LITERAL,
           int_value := (digits_value d : Int) * (if sg = ['-'] then -1 else 1),
           line_num := L.line_num, col_num := L.col_num }])) := by
  have hsg2 : (sg = [] ∧ d ≠ []) ∨ sg = ['-'] := by
    rcases hsg with rfl | rfl
    · exact Or.inl ⟨rfl, hne⟩
    · exact Or.inr rfl
  obtain ⟨L1, hL1, hrun⟩ := get_numeric_literal_int sg d h hsg2 hd hstop hdot
  rw [stoi_digits hne hd hv] at hrun
  obtain ⟨L2, hL2, hskip⟩ := skip_whitespace_run ws hL1 hws hstop2
  refine ⟨L2, hL2, ?_⟩
  intro fuel tokens
  unfold loop_body
  rw [dispatch_at_numeric sg d h hsg2 hd (fun hnil => absurd hnil hne), hrun]
  simp [push_back, hskip]

/-- The arrow `->` followed by blanks `ws`: one pass of the drive loop appends the
left-arrow token with lexeme `->` and consumes both characters and the blanks. -/
theorem loop_body_arrow {pre rest : List Char} {L : Lexer} (ws : List Char)
    (h : At pre ('-' :: '>' :: (ws ++ rest)) L) (hws : ∀ x ∈ ws, is_whitespace x = true)
    (hstop2 : is_whitespace (rest.headD EOS_CHAR) = false) :
    ∃ L1, At (pre ++ ['-', '>'] ++ ws) rest L1 ∧ ∀ (fuel : Nat) (tokens : List Token),
      loop_body fuel L tokens = some (Except.ok (L1, tokens ++
        [{ type := TOKEN_LEFT_ARROW, string_value := ['-', '>'],
           line_num := L.line_num, col_num := L.col_num }])) := by
  have hcur : cur_char L = '-' := cur_char_of_at_cons h
  have hla : lookahead_char L 1 = '>' := by rw [lookahead_of_at h]; rfl
  have h1 := advance_char_of_at_cons h
  have hcur1 : cur_char (advance_char L) = '>' := cur_char_of_at_cons h1
  have h2 := advance_char_of_at_cons h1
  have h2' : At (pre ++ ['-', '>']) (ws ++ rest) (advance_char (advance_char L)) := by
    simpa using h2
  obtain ⟨L2, hL2, hskip⟩ := skip_whitespace_run ws h2' hws hstop2
  have hp : get_punctuation L = Except.ok (advance_char (advance_char L),
      { type := TOKEN_LEFT_ARROW, string_value := ['-', '>'],
        line_num := L.line_num, col_num := L.col_num }) := by
    unfold get_punctuation
    rw [hcur, hla, hcur1]
    rfl
  refine ⟨L2, hL2, ?_⟩
  intro fuel tokens
  have hd : dispatch fuel L tokens = push_back tokens (get_punctuation L) := by
    unfold dispatch
    rw [hcur, hla]
    rfl
  unfold loop_body
  rw [hd, hp]
  simp [push_back, hskip]

theorem comment_loop_run (c : List Char) :
    ∀ (pre rest : List Char) (L : Lexer) (n : Nat),
      At pre (c ++ '\n' :: rest) L → (∀ x ∈ c, x ≠ '\n') → c.length + 1 ≤ n →
      ∃ L1, At (pre ++ c) ('\n' :: rest) L1 ∧ comment_loop n L = some L1 := by
  induction c with
  | nil =>
    intro pre rest L n h _ hn
    have h0 : At pre ('\n' :: rest) L := by simpa using h
    have hcur : cur_char L = '\n' := cur_char_of_at_cons h0
    refine ⟨L, by simpa using h0, ?_⟩
    cases n with
    | zero => simp at hn
    | succ n => simp [comment_loop, hcur]
  | cons x c ih =>
    intro pre rest L n h hc hn
    cases n with
    | zero => simp at hn
    | succ n =>
      have h0 : At pre (x :: (c ++ '\n' :: rest)) L := by simpa using h
      have hcur : cur_char L = x := cur_char_of_at_cons h0
      have hx : x ≠ '\n' := hc x (List.mem_cons_self x c)
      obtain ⟨L1, hL1, hrun⟩ := ih (pre ++ [x]) rest (advance_char L) n
        (advance_char_of_at_cons h0) (fun y hy => hc y (List.mem_cons_of_mem x hy))
        (by simpa using hn)
      refine ⟨L1, by simpa using hL1, ?_⟩
      simp [comment_loop, hcur, hx, hrun]

theorem comment_loop_mono_add (k : Nat) :
    ∀ (n : Nat) (L L1 : Lexer), comment_loop n L = some L1 →
      comment_loop (n + k) L = some L1 := by
  induction k with
  | zero => intro n L L1 h; exact h
  | succ k ih =>
    intro n L L1 h
    exact comment_loop_mono (n + k) L L1 (ih n L L1 h)

/-- An identifier-shaped word followed by blanks `ws`: the form of `loop_body_identifier`
in which the cursor after the pass does not depend on the budget or the deque. -/
theorem loop_body_word {pre rest : List Char} {L : Lexer} (c : Char) (cs ws : List Char)
    (h : At pre (c :: cs ++ (ws ++ rest)) L) (hc : is_alpha c = true)
    (hcs : ∀ x ∈ cs, is_alphanumeric x = true) (hws : ∀ x ∈ ws, is_whitespace x = true)
    (hstop : is_alphanumeric ((ws ++ rest).headD EOS_CHAR) = false)
    (hstop2 : is_whitespace (rest.headD EOS_CHAR) = false) :
    ∃ L1, At (pre ++ c :: cs ++ ws) rest L1 ∧ ∀ (fuel : Nat) (tokens : List Token),
      loop_body fuel L tokens = some (Except.ok (L1, tokens ++
        [{ type := if c :: cs = "let".toList then TOKEN_KEYWORD_LET
                   else if c :: cs = "if".toList then TOKEN_KEYWORD_IF else TOKEN_IDENT,
           string_value := c :: cs, line_num := L.line_num, col_num := L.col_num }])) := by
  obtain ⟨L1, hL1, hrun⟩ := get_identifier_or_keyword_run c cs h hc hcs hstop
  obtain ⟨L2, hL2, hskip⟩ := skip_whitespace_run ws hL1 hws hstop2
  have hcur : cur_char L = c := cur_char_of_at_cons (by simpa using h)
  refine ⟨L2, by simpa using hL2, ?_⟩
  intro fuel tokens
  unfold loop_body dispatch
  rw [hcur, hc, hrun]
  simp [push_back, hskip]

/-- A comment `#c` closed by a line feed and followed by blanks `ws`: with a budget of
more than `c.length` iterations for the comment loop, one pass of the drive loop
consumes the comment, the line feed and the blanks, and appends no token. -/
theorem loop_body_comment {pre rest : List Char} {L : Lexer} (c ws : List Char)
    (h : At pre ('#' :: (c ++ '\n' :: (ws ++ rest))) L) (hc : ∀ x ∈ c, x ≠ '\n')
    (hws : ∀ x ∈ ws, is_whitespace x = true)
    (hstop2 : is_whitespace (rest.headD EOS_CHAR) = false) :
    ∃ L1, At (pre ++ '#' :: c ++ '\n' :: ws) rest L1 ∧
      ∀ (fuel : Nat) (tokens : List Token), c.length + 1 ≤ fuel →
        loop_body fuel L tokens = some (Except.ok (L1, tokens)) := by
  have hcur : cur_char L = '#' := cur_char_of_at_cons h
  have h1 := advance_char_of_at_cons h
  obtain ⟨L2, hL2, hrun0⟩ := comment_loop_run c (pre ++ ['#']) (ws ++ rest) (advance_char L)
    (c.length + 1) h1 hc (Nat.le_refl _)
  have hcur2 : cur_char L2 = '\n' := cur_char_of_at_cons hL2
  have h3 := advance_char_of_at_cons hL2
  have h3' : At (pre ++ '#' :: c ++ ['\n']) (ws ++ rest) (advance_char L2) := by
    simpa using h3
  obtain ⟨L4, hL4, hskip⟩ := skip_whitespace_run ws h3' hws hstop2
  refine ⟨L4, by simpa using hL4, ?_⟩
  intro fuel tokens hf
  obtain ⟨L2b, hL2b, hrun⟩ := comment_loop_run c (pre ++ ['#']) (ws ++ rest) (advance_char L)
    fuel h1 hc hf
  have hsame : L2b = L2 := by
    obtain ⟨k, rfl⟩ := Nat.exists_eq_add_of_le hf
    have := comment_loop_mono_add k _ _ _ hrun0
    rw [hrun] at this
    exact Option.some.inj this
  subst hsame
  have hd : dispatch fuel L tokens = some (Except.ok (advance_char L2b, tokens)) := by
    unfold dispatch
    rw [hcur, hrun]
    simp only [hcur2]
    rfl
  unfold loop_body
  rw [hd]
  simp [hskip]



/-! ## Comments (C12), the arrow (C17), a minus between digits (C20) -/

/-- C12: a line comment and its line feed produce no token.  For every text `c` without
a line feed, the buffer `#c` LF is tokenized to end-of-stream alone; and for
identifier-shaped words `a = c1 :: cs1` and `b = c2 :: cs2`, the buffer `a #c` LF `b`
is tokenized to the token of `a`, the token of `b` and end-of-stream (identifiers, or
the keyword when the word is `let` or `if`), with no end-of-line token.  The budget has
to exceed the length of the comment: any budget of at least `c.length + 2`, resp.
`c.length + 4`, gives the result. -/
theorem C12_comment_produces_no_token (c : List Char) (hc : ∀ x ∈ c, x ≠ '\n') (fuel : Nat) :
    tokenize_stream (fuel + c.length + 2) ('#' :: c ++ ['\n']) = some (Except.ok [eof_token]) ∧
    ∀ (c1 : Char) (cs1 : List Char) (c2 : Char) (cs2 : List Char),
      is_alpha c1 = true → (∀ x ∈ cs1, is_alphanumeric x = true) →
      is_alpha c2 = true → (∀ x ∈ cs2, is_alphanumeric x = true) →
      ∃ tokens,
        tokenize_stream (fuel + c.length + 4)
          (c1 :: cs1 ++ " #".toList ++ c ++ ['\n'] ++ c2 :: cs2) = some (Except.ok tokens) ∧
        tokens.map Token.content =
          [ (if c1 :: cs1 = "let".toList then TOKEN_KEYWORD_LET
              else if c1 :: cs1 = "if".toList then TOKEN_KEYWORD_IF else TOKEN_IDENT,
             c1 :: cs1, 0, ⟨0, 0⟩),
            (if c2 :: cs2 = "let".toList then TOKEN_KEYWORD_LET
              else if c2 :: cs2 = "if".toList then TOKEN_KEYWORD_IF else TOKEN_IDENT,
             c2 :: cs2, 0, ⟨0, 0⟩),
            eof_token.content ] := by
  have hE : is_whitespace EOS_CHAR = false := by decide
  constructor
  · have h0 : At [] ('#' :: (c ++ '\n' :: ([] ++ []))) (Lexer.init ('#' :: c ++ ['\n'])) := by
      simpa using at_init ('#' :: c ++ ['\n'])
    obtain ⟨L1, hL1, hbody⟩ := loop_body_comment c [] h0 hc (by simp) hE
    have hd : done (Lexer.init ('#' :: c ++ ['\n'])) = false := by simp [done, Lexer.init]
    unfold tokenize_stream
    rw [tokenize_loop_step hd (hbody (fuel + c.length + 1) [] (by omega))]
    have := tokenize_loop_done (done_of_at_nil hL1) (fuel + c.length) []
    simpa using this
  · intro c1 cs1 c2 cs2 h1 hs1 h2 hs2
    have e1 : is_alphanumeric ' ' = false := by decide
    have e2 : is_whitespace '#' = false := by decide
    have e3 : is_whitespace c2 = false := by
      rw [Bool.eq_false_iff]
      intro hw
      simp only [is_whitespace, Bool.or_eq_true, beq_iff_eq] at hw
      rcases hw with rfl | rfl <;> revert h2 <;> decide
    have e4 : is_alphanumeric EOS_CHAR = false := by decide
    have h0 : At [] (c1 :: cs1 ++ ([' '] ++ ('#' :: (c ++ '\n' :: ([] ++ c2 :: cs2)))))
        (Lexer.init (c1 :: cs1 ++ " #".toList ++ c ++ ['\n'] ++ c2 :: cs2)) := by
      have := at_init (c1 :: cs1 ++ " #".toList ++ c ++ ['\n'] ++ c2 :: cs2)
      simpa using this
    obtain ⟨L1, hL1, hb1⟩ := loop_body_word c1 cs1 [' '] h0 h1 hs1 (by decide) e1 e2
    obtain ⟨L2, hL2, hb2⟩ := loop_body_comment c [] hL1 hc (by simp) e3
    have hL2' : At ([] ++ c1 :: cs1 ++ [' '] ++ '#' :: c ++ ['\n']) (c2 :: cs2 ++ ([] ++ [])) L2 := by
      simpa using hL2
    obtain ⟨L3, hL3, hb3⟩ := loop_body_word c2 cs2 [] hL2' h2 hs2 (by simp) e4 hE
    have hd0 : done (Lexer.init (c1 :: cs1 ++ " #".toList ++ c ++ ['\n'] ++ c2 :: cs2)) = false := by
      simp [done, Lexer.init]
    have hd1 : done L1 = false := done_of_at_cons hL1
    have hd2 : done L2 = false := done_of_at_cons (by simpa using hL2')
    refine ⟨?toks, ?h1, ?h2⟩
    case h1 =>
      unfold tokenize_stream
      rw [tokenize_loop_step hd0 (hb1 (fuel + c.length + 3) _),
        tokenize_loop_step hd1 (hb2 (fuel + c.length + 2) _ (by omega)),
        tokenize_loop_step hd2 (hb3 (fuel + c.length + 1) _)]
      exact tokenize_loop_done (done_of_at_nil hL3) (fuel + c.length) _
    case h2 => simp [Token.content]

/-- C12, at the buffers `# note` LF and `a # note` LF `b`. -/
theorem C12_comment_produces_no_token_witness :
    tokenize_stream 7 "# note\n".toList = some (Except.ok [eof_token]) ∧
    ∃ tokens, tokenize_stream 9 "a # note\nb".toList = some (Except.ok tokens) ∧
      tokens.map Token.content =
        [(TOKEN_IDENT, ['a'], 0, ⟨0, 0⟩), (TOKEN_IDENT, ['b'], 0, ⟨0, 0⟩), eof_token.content] :=
  ⟨(C12_comment_produces_no_token " note".toList (by decide) 0).1,
   (C12_comment_produces_no_token " note".toList (by decide) 0).2 'a' [] 'b' []
      (by decide) (by decide) (by decide) (by decide)⟩



theorem not_whitespace_of_alpha {c : Char} (h : is_alpha c = true) : is_whitespace c = false := by
  rw [Bool.eq_false_iff]
  intro hw
  simp only [is_whitespace, Bool.or_eq_true, beq_iff_eq] at hw
  rcases hw with rfl | rfl <;> revert h <;> decide

/-- C17: for identifier-shaped words `a = c1 :: cs1` and `b = c2 :: cs2` other than
`let` and `if`, the buffer `a -> b` is tokenized (with any budget of at least four loop
tests) to the identifier `a`, one left-arrow token with lexeme `->`, the identifier `b`
and end-of-stream; both characters of the arrow are consumed by the one token. -/
theorem C17_arrow_between_identifiers (c1 : Char) (cs1 : List Char) (c2 : Char)
    (cs2 : List Char) (h1 : is_alpha c1 = true) (hs1 : ∀ x ∈ cs1, is_alphanumeric x = true)
    (h2 : is_alpha c2 = true) (hs2 : ∀ x ∈ cs2, is_alphanumeric x = true)
    (ha : c1 :: cs1 ≠ "let".toList ∧ c1 :: cs1 ≠ "if".toList)
    (hb : c2 :: cs2 ≠ "let".toList ∧ c2 :: cs2 ≠ "if".toList) (fuel : Nat) :
    ∃ tokens,
      tokenize_stream (fuel + 4) (c1 :: cs1 ++ " -> ".toList ++ c2 :: cs2) =
        some (Except.ok tokens) ∧
      tokens.map Token.content =
        [ (TOKEN_IDENT, c1 :: cs1, 0, ⟨0, 0⟩),
          (TOKEN_LEFT_ARROW, "->".toList, 0, ⟨0, 0⟩),
          (TOKEN_IDENT, c2 :: cs2, 0, ⟨0, 0⟩),
          eof_token.content ] := by
  have hE : is_whitespace EOS_CHAR = false := by decide
  have e1 : is_alphanumeric ' ' = false := by decide
  have e2 : is_whitespace '-' = false := by decide
  have e3 : is_whitespace c2 = false := not_whitespace_of_alpha h2
  have e4 : is_alphanumeric EOS_CHAR = false := by decide
  have h0 : At [] (c1 :: cs1 ++ ([' '] ++ ('-' :: '>' :: ([' '] ++ (c2 :: cs2)))))
      (Lexer.init (c1 :: cs1 ++ " -> ".toList ++ c2 :: cs2)) := by
    have := at_init (c1 :: cs1 ++ " -> ".toList ++ c2 :: cs2)
    simpa using this
  obtain ⟨L1, hL1, hb1⟩ := loop_body_word c1 cs1 [' '] h0 h1 hs1 (by decide) e1 e2
  obtain ⟨L2, hL2, hb2⟩ := loop_body_arrow [' '] hL1 (by decide) e3
  have hL2' : At ([] ++ c1 :: cs1 ++ [' '] ++ ['-', '>'] ++ [' ']) (c2 :: cs2 ++ ([] ++ [])) L2 := by
    simpa using hL2
  obtain ⟨L3, hL3, hb3⟩ := loop_body_word c2 cs2 [] hL2' h2 hs2 (by simp) e4 hE
  have hd0 : done (Lexer.init (c1 :: cs1 ++ " -> ".toList ++ c2 :: cs2)) = false := by
    simp [done, Lexer.init]
  have hd1 : done L1 = false := done_of_at_cons hL1
  have hd2 : done L2 = false := done_of_at_cons (by simpa using hL2')
  refine ⟨?toks, ?h1, ?h2⟩
  case h1 =>
    unfold tokenize_stream
    rw [tokenize_loop_step hd0 (hb1 (fuel + 3) _), tokenize_loop_step hd1 (hb2 (fuel + 2) _),
      tokenize_loop_step hd2 (hb3 (fuel + 1) _)]
    exact tokenize_loop_done (done_of_at_nil hL3) fuel _
  case h2 =>
    simp only [if_neg ha.1, if_neg ha.2, if_neg hb.1, if_neg hb.2]
    simp [Token.content]

/-- C17, at the buffer `a -> b`. -/
theorem C17_arrow_between_identifiers_witness :
    ∃ tokens, tokenize_stream 4 "a -> b".toList = some (Except.ok tokens) ∧
      tokens.map Token.content =
        [ (TOKEN_IDENT, ['a'], 0, ⟨0, 0⟩), (TOKEN_LEFT_ARROW, "->".toList, 0, ⟨0, 0⟩),
          (TOKEN_IDENT, ['b'], 0, ⟨0, 0⟩), eof_token.content ] :=
  C17_arrow_between_identifiers 'a' [] 'b' [] (by decide) (by decide) (by decide) (by decide)
    (by decide) (by decide) 0

/-- C20: a minus sign between two numbers is folded into the second one.  For non-empty
digit strings `d1` and `d2` whose values are at most `2^31 - 1`, the buffer
`d1 ++ "-" ++ d2` is tokenized (with any budget of at least three loop tests) to the
int-literal of `d1`, the int-literal of minus `d2` and end-of-stream, with no operator
token between the two literals. -/
theorem C20_minus_between_digits (d1 d2 : List Char) (hn1 : d1 ≠ []) (hn2 : d2 ≠ [])
    (hd1 : ∀ c ∈ d1, is_numeric c = true) (hd2 : ∀ c ∈ d2, is_numeric c = true)
    (hv1 : digits_value d1 ≤ 2 ^ 31 - 1) (hv2 : digits_value d2 ≤ 2 ^ 31 - 1) (fuel : Nat) :
    ∃ tokens,
      tokenize_stream (fuel + 3) (d1 ++ '-' :: d2) = some (Except.ok tokens) ∧
      tokens.map Token.content =
        [ (TOKEN_INT_LITERAL, [], (digits_value d1 : Int), ⟨0, 0⟩),
          (TOKEN_INT_LITERAL, [], -(digits_value d2 : Int), ⟨0, 0⟩),
          eof_token.content ] := by
  have hE : is_whitespace EOS_CHAR = false := by decide
  have hE2 : is_numeric EOS_CHAR = false := by decide
  have hE3 : EOS_CHAR ≠ '.' := by decide
  have e1 : is_numeric '-' = false := by decide
  have e2 : '-' ≠ '.' := by decide
  have e3 : is_whitespace '-' = false := by decide
  have h0 : At [] ([] ++ d1 ++ ([] ++ ('-' :: d2))) (Lexer.init (d1 ++ '-' :: d2)) := by
    simpa using at_init (d1 ++ '-' :: d2)
  obtain ⟨L1, hL1, hb1⟩ := loop_body_int_literal [] d1 [] h0 (Or.inl rfl) hn1 hd1 hv1 (by simp)
    e1 e2 e3
  have hL1' : At ([] ++ [] ++ d1 ++ []) (['-'] ++ d2 ++ ([] ++ [])) L1 := by
    simpa using hL1
  obtain ⟨L2, hL2, hb2⟩ := loop_body_int_literal ['-'] d2 [] hL1' (Or.inr rfl) hn2 hd2 hv2
    (by simp) hE2 hE3 hE
  have hd0 : done (Lexer.init (d1 ++ '-' :: d2)) = false := by
    simp [done, Lexer.init]
  have hdL1 : done L1 = false := done_of_at_cons (by simpa using hL1)
  refine ⟨?toks, ?h1, ?h2⟩
  case h1 =>
    unfold tokenize_stream
    rw [tokenize_loop_step hd0 (hb1 (fuel + 2) _), tokenize_loop_step hdL1 (hb2 (fuel + 1) _)]
    exact tokenize_loop_done (done_of_at_nil hL2) fuel _
  case h2 => simp [Token.content]

/-- C20, at the buffer `5-3`. -/
theorem C20_minus_between_digits_witness :
    ∃ tokens, tokenize_stream 3 "5-3".toList = some (Except.ok tokens) ∧
      tokens.map Token.content =
        [ (TOKEN_INT_LITERAL, [], 5, ⟨0, 0⟩), (TOKEN_INT_LITERAL, [], -3, ⟨0, 0⟩),
          eof_token.content ] :=
  C20_minus_between_digits "5".toList "3".toList (by decide) (by decide) (by decide) (by decide)
    (by decide) (by decide) 0


/-! ## What a pass of the drive loop does to the cursor and the deque -/

theorem reach_refl (L : Lexer) : Reach L L := ⟨0, rfl⟩

theorem advance_n_add (a : Nat) : ∀ (b : Nat) (L : Lexer),
    advance_n (a + b) L = advance_n b (advance_n a L) := by
  induction a with
  | zero => intro b L; simp [advance_n]
  | succ a ih =>
    intro b L
    have : a + 1 + b = (a + b) + 1 := by omega
    rw [this]
    simp only [advance_n]
    exact ih b (advance_char L)

theorem reach_trans {L L1 L2 : Lexer} (h1 : Reach L L1) (h2 : Reach L1 L2) : Reach L L2 := by
  obtain ⟨a, rfl⟩ := h1
  obtain ⟨b, rfl⟩ := h2
  exact ⟨a + b, (advance_n_add a b L).symm⟩

theorem reach_advance (L : Lexer) : Reach L (advance_char L) := ⟨1, rfl⟩

theorem reach_advance_left {L L1 : Lexer} (h : Reach (advance_char L) L1) : Reach L L1 :=
  reach_trans (reach_advance L) h

theorem skip_whitespace_loop_reach (n : Nat) :
    ∀ L : Lexer, Reach L (skip_whitespace_loop n L) := by
  induction n with
  | zero => intro L; exact reach_refl L
  | succ n ih =>
    intro L
    unfold skip_whitespace_loop
    split
    · exact reach_advance_left (ih _)
    · exact reach_refl L

theorem skip_whitespace_reach (L : Lexer) : Reach L (skip_whitespace L) :=
  skip_whitespace_loop_reach _ L

theorem identifier_loop_reach (n : Nat) :
    ∀ (L : Lexer) (acc : List Char), Reach L (identifier_loop n L acc).1 := by
  induction n with
  | zero => intro L acc; exact reach_refl L
  | succ n ih =>
    intro L acc
    unfold identifier_loop
    split
    · exact reach_advance_left (ih _ _)
    · exact reach_refl L

theorem numeric_loop_reach (n : Nat) :
    ∀ (L : Lexer) (acc : List Char), Reach L (numeric_loop n L acc).1 := by
  induction n with
  | zero => intro L acc; exact reach_refl L
  | succ n ih =>
    intro L acc
    unfold numeric_loop
    split
    · exact reach_advance_left (ih _ _)
    · exact reach_refl L

theorem string_loop_reach (n : Nat) :
    ∀ (L : Lexer) (acc : List Char), Reach L (string_loop n L acc).1 := by
  induction n with
  | zero => intro L acc; exact reach_refl L
  | succ n ih =>
    intro L acc
    unfold string_loop
    split
    · exact reach_advance_left (ih _ _)
    · exact reach_refl L

theorem end_of_line_loop_reach (n : Nat) :
    ∀ L : Lexer, Reach L (end_of_line_loop n L) := by
  induction n with
  | zero => intro L; exact reach_refl L
  | succ n ih =>
    intro L
    unfold end_of_line_loop
    split
    · split
      · exact reach_advance_left (ih _)
      · split
        · exact reach_advance_left (reach_advance_left (ih _))
        · exact ih L
    · exact reach_refl L

theorem comment_loop_reach (n : Nat) :
    ∀ (L L1 : Lexer), comment_loop n L = some L1 → Reach L L1 := by
  induction n with
  | zero => intro L L1 h; simp [comment_loop] at h
  | succ n ih =>
    intro L L1 h
    unfold comment_loop at h
    split at h
    · exact reach_advance_left (ih _ _ h)
    · simp only [Option.some.injEq] at h
      rw [← h]
      exact reach_refl L

/-- Every sub-scanner moves the cursor by calls of `advance_char` only, and stamps its
token with the line and column the cursor had when the scanner was entered. -/
theorem scanner_call_reach {L L1 : Lexer} {t : Token} (h : scanner_call L L1 t) :
    Reach L L1 ∧ t.line_num = L.line_num ∧ t.col_num = L.col_num := by
  rcases h with ⟨_, h⟩ | ⟨_, _, h⟩ | h | h | h | h
  · unfold get_identifier_or_keyword at h
    simp only [Prod.mk.injEq] at h
    obtain ⟨h1, h2⟩ := h
    rw [← h1, ← h2]
    exact ⟨identifier_loop_reach _ _ _, rfl, rfl⟩
  · unfold get_operator at h
    simp only at h
    split at h
    · simp only [Except.ok.injEq, Prod.mk.injEq] at h
      obtain ⟨h1, h2⟩ := h
      rw [← h1, ← h2]
      refine ⟨?_, rfl, rfl⟩
      split
      · exact reach_advance_left (reach_advance _)
      · exact reach_advance _
    · simp at h
  · unfold get_numeric_literal at h
    simp only at h
    have hL1 : Reach L (if (cur_char L == '-') = true then advance_char L else L) := by
      split
      · exact reach_advance L
      · exact reach_refl L
    generalize (if (cur_char L == '-') = true then advance_char L else L) = Ls at h hL1
    generalize (if (cur_char L == '-') = true then (-1 : Int) else 1) = sg at h
    repeat' split at h
    all_goals first
      | (simp only [Except.ok.injEq, Prod.mk.injEq] at h
         obtain ⟨h1, h2⟩ := h
         rw [← h1, ← h2]
         first
           | exact ⟨reach_trans hL1 (reach_trans (numeric_loop_reach _ _ _)
               (reach_advance_left (numeric_loop_reach _ _ _))), rfl, rfl⟩
           | exact ⟨reach_trans hL1 (reach_trans (numeric_loop_reach _ _ _)
               (numeric_loop_reach _ _ _)), rfl, rfl⟩)
      | simp at h
  · unfold get_punctuation at h
    simp only at h
    repeat' split at h
    all_goals first
      | (simp only [Except.ok.injEq, Prod.mk.injEq] at h
         obtain ⟨h1, h2⟩ := h
         rw [← h1, ← h2]
         first
           | exact ⟨reach_advance _, rfl, rfl⟩
           | exact ⟨reach_advance_left (reach_advance _), rfl, rfl⟩)
      | simp at h
  · unfold get_string_literal at h
    simp only at h
    split at h
    · simp only [Except.ok.injEq, Prod.mk.injEq] at h
      obtain ⟨h1, h2⟩ := h
      rw [← h1, ← h2]
      exact ⟨reach_advance_left (reach_trans (string_loop_reach _ _ _) (reach_advance _)),
        rfl, rfl⟩
    · simp at h
  · unfold get_end_of_line at h
    split at h
    · simp only [Except.ok.injEq, Prod.mk.injEq] at h
      obtain ⟨h1, h2⟩ := h
      rw [← h1, ← h2]
      exact ⟨end_of_line_loop_reach _ _, rfl, rfl⟩
    · simp at h

theorem push_back_inv {tokens tokens1 : List Token} {r : Except LexError (Lexer × Token)}
    {L1 : Lexer} (h : push_back tokens r = some (Except.ok (L1, tokens1))) :
    ∃ t, r = Except.ok (L1, t) ∧ tokens1 = tokens ++ [t] := by
  unfold push_back at h
  split at h
  · rename_i L2 t2
    simp only [Option.some.injEq, Except.ok.injEq, Prod.mk.injEq] at h
    exact ⟨t2, by rw [h.1], h.2.symm⟩
  · simp at h

/-- A dispatch that returns either appended nothing and moved the cursor by calls of
`advance_char` (a comment, or a `'-'` that starts neither an arrow nor a number), or
appended the one token of a sub-scanner. -/
theorem dispatch_cases {fuel : Nat} {L L1 : Lexer} {tokens tokens1 : List Token}
    (h : dispatch fuel L tokens = some (Except.ok (L1, tokens1))) :
    (tokens1 = tokens ∧ Reach L L1) ∨
    (∃ t, tokens1 = tokens ++ [t] ∧ scanner_call L L1 t) := by
  unfold dispatch at h
  by_cases c1 : is_alpha (cur_char L) = true
  · rw [if_pos c1] at h
    obtain ⟨t, ht, htok⟩ := push_back_inv h
    simp only [Except.ok.injEq] at ht
    exact Or.inr ⟨t, htok, Or.inl ⟨c1, ht⟩⟩
  rw [if_neg c1] at h
  by_cases c2 : (cur_char L == '-') = true
  · rw [if_pos c2] at h
    split at h
    · obtain ⟨t, ht, htok⟩ := push_back_inv h
      exact Or.inr ⟨t, htok, Or.inr (Or.inr (Or.inr (Or.inl ht)))⟩
    split at h
    · obtain ⟨t, ht, htok⟩ := push_back_inv h
      exact Or.inr ⟨t, htok, Or.inr (Or.inr (Or.inl ht))⟩
    · simp only [Option.some.injEq, Except.ok.injEq, Prod.mk.injEq] at h
      exact Or.inl ⟨h.2.symm, by rw [← h.1]; exact reach_refl L⟩
  rw [if_neg c2] at h
  by_cases c3 : is_operator (cur_char L) = true
  · rw [if_pos c3] at h
    obtain ⟨t, ht, htok⟩ := push_back_inv h
    have hm : cur_char L ≠ '-' := by
      intro hm
      rw [hm] at c2
      exact c2 rfl
    exact Or.inr ⟨t, htok, Or.inr (Or.inl ⟨c3, hm, ht⟩)⟩
  rw [if_neg c3] at h
  by_cases c4 : is_numeric (cur_char L) = true
  · rw [if_pos c4] at h
    obtain ⟨t, ht, htok⟩ := push_back_inv h
    exact Or.inr ⟨t, htok, Or.inr (Or.inr (Or.inl ht))⟩
  rw [if_neg c4] at h
  by_cases c5 : (cur_char L == '\"') = true
  · rw [if_pos c5] at h
    obtain ⟨t, ht, htok⟩ := push_back_inv h
    exact Or.inr ⟨t, htok, Or.inr (Or.inr (Or.inr (Or.inr (Or.inl ht))))⟩
  rw [if_neg c5] at h
  by_cases c6 : (cur_char L == '\r' || cur_char L == '\n') = true
  · rw [if_pos c6] at h
    obtain ⟨t, ht, htok⟩ := push_back_inv h
    exact Or.inr ⟨t, htok, Or.inr (Or.inr (Or.inr (Or.inr (Or.inr ht))))⟩
  rw [if_neg c6] at h
  by_cases c7 : (cur_char L == '#') = true
  · rw [if_pos c7] at h
    cases hc : comment_loop fuel (advance_char L) with
    | none =>
      rw [hc] at h
      simp at h
    | some L2 =>
      rw [hc] at h
      have hr : Reach L L2 := reach_advance_left (comment_loop_reach _ _ _ hc)
      simp only at h
      left
      split at h
      · simp only [Option.some.injEq, Except.ok.injEq, Prod.mk.injEq] at h
        exact ⟨h.2.symm, by rw [← h.1]; exact reach_trans hr (reach_advance _)⟩
      · split at h
        · simp only [Option.some.injEq, Except.ok.injEq, Prod.mk.injEq] at h
          exact ⟨h.2.symm, by
            rw [← h.1]
            exact reach_trans hr (reach_advance_left (reach_advance _))⟩
        · simp only [Option.some.injEq, Except.ok.injEq, Prod.mk.injEq] at h
          exact ⟨h.2.symm, by rw [← h.1]; exact hr⟩
  · rw [if_neg c7] at h
    obtain ⟨t, ht, htok⟩ := push_back_inv h
    exact Or.inr ⟨t, htok, Or.inr (Or.inr (Or.inr (Or.inl ht)))⟩

/-- The same for a whole pass: the call of `skip_whitespace` moves the cursor further,
so in the second case the cursor `L2` the scanner left is named apart. -/
theorem loop_body_cases {fuel : Nat} {L L1 : Lexer} {tokens tokens1 : List Token}
    (h : loop_body fuel L tokens = some (Except.ok (L1, tokens1))) :
    Reach L L1 ∧
    (tokens1 = tokens ∨ ∃ t L2, tokens1 = tokens ++ [t] ∧ scanner_call L L2 t) := by
  unfold loop_body at h
  split at h
  · rename_i L2 tokens2 hd
    simp only [Option.some.injEq, Except.ok.injEq, Prod.mk.injEq] at h
    obtain ⟨h1, h2⟩ := h
    rw [← h1, ← h2]
    rcases dispatch_cases hd with ⟨ht, hr⟩ | ⟨t, ht, hs⟩
    · exact ⟨reach_trans hr (skip_whitespace_reach _), Or.inl ht⟩
    · exact ⟨reach_trans (scanner_call_reach hs).1 (skip_whitespace_reach _),
        Or.inr ⟨t, L2, ht, hs⟩⟩
  · simp at h
  · simp at h


/-! ## Kinds that are never produced (C19) -/

theorem lookup_mem_pair {α β : Type} [BEq α] [LawfulBEq α] (k : α) (v : β) :
    ∀ l : List (α × β), l.lookup k = some v → (k, v) ∈ l := by
  intro l
  induction l with
  | nil => intro h; simp at h
  | cons e l ih =>
    intro h
    obtain ⟨a, b⟩ := e
    rw [List.lookup_cons] at h
    split at h
    · rename_i hk
      simp only [Option.some.injEq] at h
      have hka : k = a := by simpa using hk
      rw [hka, h]
      exact List.mem_cons_self _ _
    · exact List.mem_cons_of_mem _ (ih h)

/-- A spelling that the table maps to one of the five kinds starts with `-`, `!`, `|`
or `&`. -/
theorem reserved_find_unscanned {key : List Char} {t : Token_Type}
    (h : reserved_find key = some t) (ht : t ∈ unscanned_kinds) :
    key.headD EOS_CHAR ∈ ['-', '!', '|', '&'] := by
  have hm := lookup_mem_pair key t reserved_types h
  have hall : ∀ p ∈ reserved_types, p.2 ∈ unscanned_kinds →
      p.1.headD EOS_CHAR ∈ ['-', '!', '|', '&'] := by
    decide
  exact hall (key, t) hm ht

theorem identifier_loop_head (n : Nat) :
    ∀ (L : Lexer) (acc : List Char), acc ≠ [] →
      (identifier_loop n L acc).2.headD EOS_CHAR = acc.headD EOS_CHAR := by
  induction n with
  | zero => intro L acc _; rfl
  | succ n ih =>
    intro L acc hacc
    unfold identifier_loop
    split
    · rw [ih _ _ (by simp)]
      cases acc with
      | nil => exact absurd rfl hacc
      | cons a as => rfl
    · rfl

/-- The word that `get_identifier_or_keyword` collects starts with the character under
the cursor when that character is alphanumeric. -/
theorem identifier_loop_first {L : Lexer} (h : is_alphanumeric (cur_char L) = true) :
    (identifier_loop (remaining L) L []).2.headD EOS_CHAR = cur_char L := by
  cases hn : remaining L with
  | zero =>
    have he : is_alphanumeric EOS_CHAR = false := by decide
    rw [cur_char_of_done (done_of_remaining_zero hn), he] at h
    exact Bool.noConfusion h
  | succ n =>
    unfold identifier_loop
    rw [if_pos h, identifier_loop_head n _ _ (by simp)]
    rfl

/-- No sub-scanner the dispatch calls returns a token of one of the five kinds. -/
theorem scanner_call_kind {L L1 : Lexer} {t : Token} (h : scanner_call L L1 t) :
    t.type ∉ unscanned_kinds := by
  rcases h with ⟨ha, h⟩ | ⟨ho, hm, h⟩ | h | h | h | h
  · unfold get_identifier_or_keyword at h
    simp only [Prod.mk.injEq] at h
    obtain ⟨_, h2⟩ := h
    rw [← h2]
    simp only
    split
    · rename_i k hk
      intro hmem
      have hkey := reserved_find_unscanned hk hmem
      rw [identifier_loop_first (by simp [is_alphanumeric, ha])] at hkey
      simp only [List.mem_cons, List.mem_singleton, List.not_mem_nil, or_false] at hkey
      rcases hkey with hc | hc | hc | hc <;> rw [hc] at ha <;> revert ha <;> decide
    · decide
  · unfold get_operator at h
    simp only at h
    split at h
    · rename_i k hk
      simp only [Except.ok.injEq, Prod.mk.injEq] at h
      rw [← h.2]
      intro hmem
      have hkey := reserved_find_unscanned hk hmem
      have hhead : (if (cur_char (advance_char L) == '=') = true then
          (advance_char (advance_char L), [cur_char L] ++ [cur_char (advance_char L)])
          else (advance_char L, [cur_char L])).2.headD EOS_CHAR = cur_char L := by
        split <;> rfl
      rw [hhead] at hkey
      simp only [List.mem_cons, List.mem_singleton, List.not_mem_nil, or_false] at hkey
      rcases hkey with hc | hc | hc | hc
      · exact hm hc
      · rw [hc] at ho; revert ho; decide
      · rw [hc] at ho; revert ho; decide
      · rw [hc] at ho; revert ho; decide
    · simp at h
  · rcases get_numeric_literal_type h with h1 | h1 <;> rw [h1] <;> decide
  · unfold get_punctuation at h
    simp only at h
    repeat' split at h
    all_goals first
      | (simp only [Except.ok.injEq, Prod.mk.injEq] at h
         rw [← h.2]
         simp [unscanned_kinds])
      | simp at h
  · rw [get_string_literal_type h]
    decide
  · rw [get_end_of_line_type h]
    decide

theorem loop_body_kinds {fuel : Nat} {L L1 : Lexer} {tokens tokens1 : List Token}
    (h : loop_body fuel L tokens = some (Except.ok (L1, tokens1)))
    (hall : ∀ t ∈ tokens, t.type ∉ unscanned_kinds) :
    ∀ t ∈ tokens1, t.type ∉ unscanned_kinds := by
  rcases (loop_body_cases h).2 with ht | ⟨t, L2, ht, hs⟩
  · rw [ht]
    exact hall
  · rw [ht]
    intro x hx
    rcases List.mem_append.mp hx with hx | hx
    · exact hall x hx
    · rw [List.mem_singleton] at hx
      rw [hx]
      exact scanner_call_kind hs

theorem deque_after_kinds (fuel k : Nat) :
    ∀ (L : Lexer) (tokens : List Token), (∀ t ∈ tokens, t.type ∉ unscanned_kinds) →
      ∀ t ∈ deque_after fuel k L tokens, t.type ∉ unscanned_kinds := by
  induction k with
  | zero => intro L tokens hall; exact hall
  | succ k ih =>
    intro L tokens hall
    unfold deque_after
    split
    · split
      · rename_i L1 tokens1 hb
        exact ih L1 tokens1 (loop_body_kinds hb hall)
      · exact hall
      · exact hall
    · intro t ht
      rcases List.mem_append.mp ht with ht | ht
      · exact hall t ht
      · rw [List.mem_singleton] at ht
        rw [ht]
        decide

theorem tokenize_loop_kinds (fuel : Nat) :
    ∀ (L : Lexer) (tokens result : List Token),
      tokenize_loop fuel L tokens = some (Except.ok result) →
      (∀ t ∈ tokens, t.type ∉ unscanned_kinds) → ∀ t ∈ result, t.type ∉ unscanned_kinds := by
  induction fuel with
  | zero => intro L tokens result h; simp [tokenize_loop] at h
  | succ fuel ih =>
    intro L tokens result h hall
    unfold tokenize_loop at h
    split at h
    · split at h
      · rename_i L1 tokens1 hb
        exact ih L1 tokens1 result h (loop_body_kinds hb hall)
      · simp at h
      · simp at h
    · simp only [Option.some.injEq, Except.ok.injEq] at h
      rw [← h]
      intro t ht
      rcases List.mem_append.mp ht with ht | ht
      · exact hall t ht
      · rw [List.mem_singleton] at ht
        rw [ht]
        decide

/-- C19: for every buffer, no token in the deque of `tokenize_stream` has kind
operator-minus, operator-not-equals, operator-or, operator-and or operator-not: not
after any number `k` of tests of the loop condition (whether the run has returned,
raised an error or is cut off there, and whatever budget `fuel` the comment loop has),
and so not in a returned sequence.  The reserved-word table does hold the five kinds;
a sub-scanner is called with an operator lookup only on an operator character other
than `'-'`, and `'!'`, `'|'`, `'&'` are not operator characters. -/
theorem C19_unscanned_operator_kinds :
    (∀ (fuel k : Nat) (stream : List Char),
      ∀ t ∈ deque_after fuel k (Lexer.init stream) [], t.type ∉ unscanned_kinds) ∧
    (∀ (fuel : Nat) (stream : List Char) (result : List Token),
      tokenize_stream fuel stream = some (Except.ok result) →
      ∀ t ∈ result, t.type ∉ unscanned_kinds) ∧
    (∀ k ∈ unscanned_kinds, k ∈ reserved_types.map Prod.snd) ∧
    (∀ c ∈ ['!', '|', '&'], is_operator c = false ∧ is_alpha c = false) := by
  refine ⟨?_, ?_, by decide, by decide⟩
  · intro fuel k stream
    exact deque_after_kinds fuel k (Lexer.init stream) [] (by intro t ht; simp at ht)
  · intro fuel stream result h
    exact tokenize_loop_kinds fuel (Lexer.init stream) [] result h (by intro t ht; simp at ht)


/-! ## Line and column accounting (C13, C14) -/

theorem advance_char_stream (L : Lexer) : (advance_char L).stream = L.stream := by
  unfold advance_char
  simp only
  split
  · split <;> rfl
  · rfl

theorem take_succ_of_lt {buf : List Char} {i : Nat} (h : i < buf.length) :
    buf.take (i + 1) = buf.take i ++ [buf.getD i EOS_CHAR] := by
  rw [List.take_succ, List.getD_eq_getElem?_getD, List.getElem?_eq_getElem h]
  rfl

theorem line_at_succ {buf : List Char} {i : Nat} (h : i < buf.length) :
    line_at buf (i + 1) = line_at buf i + (if buf.getD i EOS_CHAR = '\n' then 1 else 0) := by
  unfold line_at
  rw [take_succ_of_lt h, List.count_append]
  by_cases hc : buf.getD i EOS_CHAR = '\n'
  · rw [hc]
    simp
    omega
  · have : List.count '\n' [buf.getD i EOS_CHAR] = 0 := by
      rw [List.count_eq_zero, List.mem_singleton]
      exact fun h => hc h.symm
    rw [this, if_neg hc]
    omega

theorem col_at_succ {buf : List Char} {i : Nat} (h : i < buf.length) :
    col_at buf (i + 1) = if buf.getD i EOS_CHAR = '\n' then 1 else col_at buf i + 1 := by
  unfold col_at
  rw [take_succ_of_lt h, List.reverse_append, List.reverse_singleton, List.singleton_append]
  by_cases hc : buf.getD i EOS_CHAR = '\n'
  · rw [if_pos hc, hc]
    simp [List.takeWhile]
  · rw [if_neg hc]
    have hb : (buf.getD i EOS_CHAR != '\n') = true := by
      simp only [bne_iff_ne, ne_eq]
      exact hc
    simp only [List.takeWhile_cons, hb, ↓reduceIte, List.length_cons]
    omega

/-- On a buffer without carriage return, a call of `advance_char` keeps the counters of
the cursor in agreement with its offset. -/
theorem advance_char_consistent {L : Lexer} (hcr : '\r' ∉ L.stream) (h : Consistent L) :
    Consistent (advance_char L) := by
  obtain ⟨h1, h2, h3⟩ := h
  by_cases hd : done L = true
  · have : advance_char L = L := by simp [advance_char, hd]
    rw [this]
    exact ⟨h1, h2, h3⟩
  · have hd' : done L = false := by simpa using hd
    have hlt : L.stream_idx < L.stream.length := by
      simp only [done, decide_eq_false_iff_not, ge_iff_le, not_le] at hd'
      exact hd'
    have hcur : cur_char L = L.stream.getD L.stream_idx EOS_CHAR := by
      simp [cur_char, hd']
    have hne : (cur_char L == '\r') = false := by
      rw [beq_eq_false_iff_ne, hcur]
      intro he
      apply hcr
      rw [← he, List.getD_eq_getElem?_getD, List.getElem?_eq_getElem hlt]
      exact List.getElem_mem hlt
    unfold advance_char
    simp only [hd', Bool.not_false, if_true, hne, Bool.false_and, Bool.or_false]
    by_cases hc : cur_char L = '\n'
    · have hb : (cur_char L == '\n') = true := by simpa using hc
      rw [if_pos hb]
      refine ⟨by simpa using hlt, ?_, ?_⟩
      · simp only
        rw [line_at_succ hlt, ← hcur, if_pos hc, h2]
      · simp only
        rw [col_at_succ hlt, ← hcur, if_pos hc]
    · have hb : ¬ (cur_char L == '\n') = true := by simpa using hc
      rw [if_neg hb]
      refine ⟨by simpa using hlt, ?_, ?_⟩
      · simp only
        rw [line_at_succ hlt, ← hcur, if_neg hc, h2]
        rfl
      · simp only
        rw [col_at_succ hlt, ← hcur, if_neg hc, h3]

theorem advance_n_consistent (k : Nat) :
    ∀ L : Lexer, '\r' ∉ L.stream → Consistent L →
      Consistent (advance_n k L) ∧ (advance_n k L).stream = L.stream := by
  induction k with
  | zero => intro L _ h; exact ⟨h, rfl⟩
  | succ k ih =>
    intro L hcr h
    have h1 := advance_char_consistent hcr h
    have hs := advance_char_stream L
    have := ih (advance_char L) (by rw [hs]; exact hcr) h1
    exact ⟨this.1, by rw [show advance_n (k + 1) L = advance_n k (advance_char L) from rfl,
      this.2, hs]⟩

theorem reach_consistent {L L1 : Lexer} (hr : Reach L L1) (hcr : '\r' ∉ L.stream)
    (h : Consistent L) : Consistent L1 ∧ L1.stream = L.stream := by
  obtain ⟨k, rfl⟩ := hr
  exact advance_n_consistent k L hcr h

theorem consistent_init (buf : List Char) : Consistent (Lexer.init buf) := by
  simp [Consistent, Lexer.init, line_at, col_at]



theorem advance_char_idx (L : Lexer) :
    (advance_char L).stream_idx = if done L then L.stream_idx else L.stream_idx + 1 := by
  unfold advance_char
  by_cases hd : done L = true
  · simp [hd]
  · have hd' : done L = false := by simpa using hd
    simp only [hd', Bool.not_false, if_true, Bool.false_eq_true, if_false]
    split <;> rfl

theorem advance_n_idx (k : Nat) :
    ∀ L : Lexer, L.stream_idx + k ≤ L.stream.length →
      (advance_n k L).stream_idx = L.stream_idx + k := by
  induction k with
  | zero => intro L _; rfl
  | succ k ih =>
    intro L h
    have hd : done L = false := by
      simp only [done, decide_eq_false_iff_not, ge_iff_le, not_le]
      omega
    have h1 : (advance_char L).stream_idx = L.stream_idx + 1 := by
      rw [advance_char_idx, hd]
      rfl
    have := ih (advance_char L) (by rw [h1, advance_char_stream]; omega)
    rw [show advance_n (k + 1) L = advance_n k (advance_char L) from rfl, this, h1]
    omega

theorem line_terminators_lf (rest : List Char) :
    line_terminators ('\n' :: rest) = 1 + line_terminators rest := by
  rw [line_terminators]

theorem line_terminators_other (c : Char) (rest : List Char) (hc : c ≠ '\r') (hn : c ≠ '\n') :
    line_terminators (c :: rest) = line_terminators rest := by
  conv_lhs => unfold line_terminators
  split
  · rename_i heq
    simp at heq
  · rename_i heq
    simp only [List.cons.injEq] at heq
    exact absurd heq.1 hc
  · rename_i heq
    simp only [List.cons.injEq] at heq
    exact absurd heq.1 hn
  · rename_i heq
    simp only [List.cons.injEq] at heq
    rw [heq.2]

theorem line_terminators_of_no_cr (buf : List Char) (hcr : '\r' ∉ buf) :
    line_terminators buf = buf.count '\n' := by
  induction buf with
  | nil => rfl
  | cons c rest ih =>
    have hc : c ≠ '\r' := fun h => hcr (by rw [h]; exact List.mem_cons_self _ _)
    have hrest : '\r' ∉ rest := fun h => hcr (List.mem_cons_of_mem _ h)
    by_cases hn : c = '\n'
    · subst hn
      rw [List.count_cons_self, ← ih hrest, line_terminators_lf]
      omega
    · rw [List.count_cons_of_ne (fun h => hn h.symm), ← ih hrest,
        line_terminators_other c rest hc hn]

/-- On a buffer without carriage return the line count of `advance_char` is the one of
the specification. -/
theorem line_count_of_no_cr (buf : List Char) (hcr : '\r' ∉ buf) :
    (advance_n buf.length (Lexer.init buf)).line_num = 1 + line_terminators buf := by
  obtain ⟨hc, hs⟩ := advance_n_consistent buf.length (Lexer.init buf) hcr (consistent_init buf)
  have hidx : (advance_n buf.length (Lexer.init buf)).stream_idx = buf.length := by
    have := advance_n_idx buf.length (Lexer.init buf) (by simp [Lexer.init])
    simpa [Lexer.init] using this
  rw [hc.2.1, hs, hidx, line_terminators_of_no_cr buf hcr]
  simp [line_at, Lexer.init]



/-- On a buffer without carriage return, a pass of the drive loop that starts with
consistent counters ends with consistent counters, and the token it appends, if any,
carries the line and column of the offset at which the pass started. -/
theorem loop_body_positions {buf : List Char} (hcr : '\r' ∉ buf) {fuel : Nat} {L L1 : Lexer}
    {tokens tokens1 : List Token} (hs : L.stream = buf) (hc : Consistent L)
    (h : loop_body fuel L tokens = some (Except.ok (L1, tokens1))) :
    L1.stream = buf ∧ Consistent L1 ∧
    (tokens1 = tokens ∨ ∃ t, tokens1 = tokens ++ [t] ∧
      t.line_num = line_at buf L.stream_idx ∧ t.col_num = col_at buf L.stream_idx) := by
  obtain ⟨hr, hcases⟩ := loop_body_cases h
  have hcr' : '\r' ∉ L.stream := by rw [hs]; exact hcr
  obtain ⟨hc1, hs1⟩ := reach_consistent hr hcr' hc
  refine ⟨by rw [hs1, hs], hc1, ?_⟩
  rcases hcases with ht | ⟨t, L2, ht, hcall⟩
  · exact Or.inl ht
  · obtain ⟨_, hl, hcol⟩ := scanner_call_reach hcall
    refine Or.inr ⟨t, ht, ?_, ?_⟩
    · rw [hl, hc.2.1, hs]
    · rw [hcol, hc.2.2, hs]

theorem tokenize_loop_positions {buf : List Char} (hcr : '\r' ∉ buf) (fuel : Nat) :
    ∀ (L : Lexer) (tokens result : List Token), L.stream = buf → Consistent L →
      (∀ t ∈ tokens, ∃ i, i ≤ buf.length ∧ t.line_num = line_at buf i ∧
        t.col_num = col_at buf i) →
      tokenize_loop fuel L tokens = some (Except.ok result) →
      ∃ front, result = front ++ [eof_token] ∧
        ∀ t ∈ front, ∃ i, i ≤ buf.length ∧ t.line_num = line_at buf i ∧
          t.col_num = col_at buf i := by
  induction fuel with
  | zero => intro L tokens result _ _ _ h; simp [tokenize_loop] at h
  | succ fuel ih =>
    intro L tokens result hs hc hall h
    unfold tokenize_loop at h
    split at h
    · split at h
      · rename_i L1 tokens1 hb
        obtain ⟨hs1, hc1, hcases⟩ := loop_body_positions hcr hs hc hb
        refine ih L1 tokens1 result hs1 hc1 ?_ h
        rcases hcases with ht | ⟨t, ht, hl, hcol⟩
        · rw [ht]
          exact hall
        · rw [ht]
          intro x hx
          rcases List.mem_append.mp hx with hx | hx
          · exact hall x hx
          · rw [List.mem_singleton] at hx
            rw [hx]
            exact ⟨L.stream_idx, by rw [← hs]; exact hc.1, hl, hcol⟩
      · simp at h
      · simp at h
    · simp only [Option.some.injEq, Except.ok.injEq] at h
      exact ⟨tokens, h.symm, hall⟩

/-- C14: token positions are the 1-based position of the token's first character.  On
a buffer `buf` without carriage return: the counters of the fresh lexer agree with its
offset; a pass of the drive loop entered with the cursor at an offset `i` whose
counters agree with it leaves counters that agree with the new offset, and the token
of the sub-scanner it calls has line `1 +` the number of line feeds in `buf[0..i)` and
column `1 +` the number of characters between the last of them (or the start of the
buffer) and `i`; so every token of a returned sequence but the end-of-stream token
carries the line and column of an offset of the buffer.  And the buffer `let` LF `x`
gives `x` line 2, column 1. -/
theorem C14_token_positions (buf : List Char) (hcr : '\r' ∉ buf) (fuel : Nat) :
    Consistent (Lexer.init buf) ∧
    (∀ (f : Nat) (L L1 : Lexer) (tokens tokens1 : List Token),
      L.stream = buf → Consistent L →
      loop_body f L tokens = some (Except.ok (L1, tokens1)) →
      L1.stream = buf ∧ Consistent L1 ∧
      (tokens1 = tokens ∨ ∃ t, tokens1 = tokens ++ [t] ∧
        t.line_num = line_at buf L.stream_idx ∧ t.col_num = col_at buf L.stream_idx)) ∧
    (∀ (L L1 : Lexer) (t : Token), L.stream = buf → Consistent L → scanner_call L L1 t →
      t.line_num = line_at buf L.stream_idx ∧ t.col_num = col_at buf L.stream_idx) ∧
    (∀ (f : Nat) (result : List Token), tokenize_stream f buf = some (Except.ok result) →
      ∃ front, result = front ++ [eof_token] ∧
        ∀ t ∈ front, ∃ i, i ≤ buf.length ∧ t.line_num = line_at buf i ∧
          t.col_num = col_at buf i) ∧
    tokenize_stream (fuel + 4) "let\nx".toList = some (Except.ok
      [{ type := TOKEN_KEYWORD_LET, string_value := "let".toList, line_num := 1, col_num := 1 },
       { type := TOKEN_EOL, line_num := 1, col_num := 4 },
       { type := TOKEN_IDENT, string_value := "x".toList, line_num := 2, col_num := 1 },
       eof_token]) := by
  refine ⟨consistent_init buf, ?_, ?_, ?_, rfl⟩
  · intro f L L1 tokens tokens1 hs hc h
    exact loop_body_positions hcr hs hc h
  · intro L L1 t hs hc hcall
    obtain ⟨_, hl, hcol⟩ := scanner_call_reach hcall
    exact ⟨by rw [hl, hc.2.1, hs], by rw [hcol, hc.2.2, hs]⟩
  · intro f result h
    exact tokenize_loop_positions hcr f (Lexer.init buf) [] result rfl (consistent_init buf)
      (by intro t ht; simp at ht) h

/-- C14, at the buffer `let` LF `x`: the identifier `x`, scanned at offset 4, is at
line 2, column 1. -/
theorem C14_token_positions_witness :
    line_at "let\nx".toList 4 = 2 ∧ col_at "let\nx".toList 4 = 1 ∧
    ∃ front, [ ({ type := TOKEN_KEYWORD_LET, string_value := "let".toList,
                  line_num := 1, col_num := 1 } : Token),
               { type := TOKEN_EOL, line_num := 1, col_num := 4 },
               { type := TOKEN_IDENT, string_value := "x".toList, line_num := 2, col_num := 1 },
               eof_token ] = front ++ [eof_token] ∧
      ∀ t ∈ front, ∃ i, i ≤ "let\nx".toList.length ∧ t.line_num = line_at "let\nx".toList i ∧
        t.col_num = col_at "let\nx".toList i :=
  ⟨by decide, by decide,
    (C14_token_positions "let\nx".toList (by decide) 0).2.2.2.1 4 _ rfl⟩

/-- C13 fails on the code: `advance_char` takes the lookahead of its carriage-return
test after it has incremented `stream_idx`, so the test looks two characters behind
the carriage return.  On the buffer CR `x` LF, whose only line terminator is the line
feed, the first call (at the carriage return, which no line feed follows) increments
the line and resets the column, and after one call per character `line_num` is 3, not
2; on CR LF LF it is 4, not 3.  On a buffer without carriage return the count is the
one the specification gives. -/
theorem C13_carriage_return_miscounted :
    advance_char (Lexer.init "\rx\n".toList) =
      { stream := "\rx\n".toList, stream_idx := 1, line_num := 2, col_num := 1 } ∧
    (advance_n 3 (Lexer.init "\rx\n".toList)).line_num = 3 ∧
    1 + line_terminators "\rx\n".toList = 2 ∧
    (advance_n 3 (Lexer.init "\r\n\n".toList)).line_num = 4 ∧
    1 + line_terminators "\r\n\n".toList = 3 ∧
    (∀ buf : List Char, '\r' ∉ buf →
      (advance_n buf.length (Lexer.init buf)).line_num = 1 + line_terminators buf) := by
  refine ⟨rfl, rfl, rfl, rfl, rfl, line_count_of_no_cr⟩

end Stutter
